import Mathlib

/-! Cortex-M7-Emulator: a shallow embedding of `Cortex-M7-Emulator.cpp`

The emulator is a single C++ file: a byte memory (`struct Memory`), a register
union (`union Registers`), and a `CPU` whose `Execute` runs a
fetch-decode-execute loop against a cycle budget.

Conventions of the embedding

* `Byte` and `Word` values are natural numbers; every store into a `Byte`
  reduces modulo `2^8`, every store into a `Word` modulo `2^16`.
* `Memory::Data` is an array of `MEM_SIZE = 0xFFFF` bytes.  Indexing it at an
  address that is not below `MEM_SIZE` is outside the array (undefined
  behaviour in C++); the embedding reports it as `Fault.memoryIndex`.
* `Registers::aligned` is an array of eight words, and
  `Registers::operator[]` indexes it with the register byte of the
  instruction, unchecked.  Indexing it at 8 or above is outside the array
  (undefined behaviour in C++; the storage that follows the eight words is
  the status byte and then `CPU::halted`); the embedding does not follow the
  store into that storage and reports the access as `Fault.registerIndex`.
* Integer division by zero is reported as `Fault.divideByZero`, and the
  `default:` label of the switch (`throw;`) as `Fault.illegalInstruction`.
* `cycles` is the `i64` budget that `Execute` threads through every access
  function by reference; it is carried in the machine state.
* `accessed` is a ghost counter, absent from the C++ code: it counts the
  evaluations of `Memory::operator[]`, that is the bytes really transferred.
  No definition reads it; it only lets theorems compare the charge with the
  number of bytes touched.
-/

namespace CortexM7

/-- Ways in which a step of the emulator fails to complete. -/
inductive Fault where
  | illegalInstruction
  | divideByZero
  | memoryIndex
  | registerIndex
  deriving DecidableEq

/-- The enumeration `Opcode` of the source, with every enumerator. -/
inductive Opcode where
  | OP_NOP | OP_RESET | OP_HALT
  | OP_ADD | OP_ADDC | OP_ADDA
  | OP_SUB | OP_SUBC | OP_SUBA
  | OP_MUL | OP_MULC | OP_MULA
  | OP_DIV | OP_DIVC | OP_DIVA
  | OP_CMP | OP_CMPA
  | OP_INC | OP_INCM | OP_DEC | OP_DECM
  | OP_UXT
  | OP_LDR | OP_LDC | OP_LDM
  | OP_STRM | OP_STMM | OP_STCM
  | OP_SWPM | OP_SWPR | OP_SWPRM
  | OP_JSR | OP_RTN | OP_JMP
  | OP_JRZ | OP_JRE | OP_JRN | OP_JRG | OP_JRGE | OP_JRL | OP_JRLE
  | OP_JREM | OP_JRNM | OP_JRGM | OP_JRGEM | OP_JRLM | OP_JRLEM
  | OP_PUSH | OP_PUSHM | OP_PUSHC
  | OP_POP | OP_POPM
  | OP_PUSHS | OP_POPS
  deriving DecidableEq

open Opcode

/-- The numeric value of each enumerator, as the `enum` declaration assigns
it: explicit initialisers where the source has them, previous value plus one
elsewhere. -/
def Opcode.val : Opcode → Nat
  | OP_NOP => 0x00 | OP_RESET => 0x7E | OP_HALT => 0x7F
  | OP_ADD => 0x01 | OP_ADDC => 0x02 | OP_ADDA => 0x03
  | OP_SUB => 0x04 | OP_SUBC => 0x05 | OP_SUBA => 0x06
  | OP_MUL => 0x07 | OP_MULC => 0x08 | OP_MULA => 0x09
  | OP_DIV => 0x0A | OP_DIVC => 0x0B | OP_DIVA => 0x0C
  | OP_CMP => 0x0E | OP_CMPA => 0x0F
  | OP_INC => 0x10 | OP_INCM => 0x11 | OP_DEC => 0x12 | OP_DECM => 0x13
  | OP_UXT => 0x20
  | OP_LDR => 0x30 | OP_LDC => 0x31 | OP_LDM => 0x32
  | OP_STRM => 0x33 | OP_STMM => 0x34 | OP_STCM => 0x35
  | OP_SWPM => 0x36 | OP_SWPR => 0x37 | OP_SWPRM => 0x38
  | OP_JSR => 0x40 | OP_RTN => 0x41 | OP_JMP => 0x42
  | OP_JRZ => 0x43 | OP_JRE => 0x44 | OP_JRN => 0x45 | OP_JRG => 0x46
  | OP_JRGE => 0x47 | OP_JRL => 0x48 | OP_JRLE => 0x49
  | OP_JREM => 0x4A | OP_JRNM => 0x4B | OP_JRGM => 0x4C
  | OP_JRGEM => 0x4D | OP_JRLM => 0x4E | OP_JRLEM => 0x4F
  | OP_PUSH => 0x60 | OP_PUSHM => 0x61 | OP_PUSHC => 0x62
  | OP_POP => 0x63 | OP_POPM => 0x64
  | OP_PUSHS => 0x65 | OP_POPS => 0x66

/-- Every enumerator of `Opcode`, in declaration order. -/
def Opcode.all : List Opcode :=
  [OP_NOP, OP_RESET, OP_HALT, OP_ADD, OP_ADDC, OP_ADDA, OP_SUB, OP_SUBC, OP_SUBA,
   OP_MUL, OP_MULC, OP_MULA, OP_DIV, OP_DIVC, OP_DIVA, OP_CMP, OP_CMPA,
   OP_INC, OP_INCM, OP_DEC, OP_DECM, OP_UXT, OP_LDR, OP_LDC, OP_LDM,
   OP_STRM, OP_STMM, OP_STCM, OP_SWPM, OP_SWPR, OP_SWPRM,
   OP_JSR, OP_RTN, OP_JMP, OP_JRZ, OP_JRE, OP_JRN, OP_JRG, OP_JRGE, OP_JRL, OP_JRLE,
   OP_JREM, OP_JRNM, OP_JRGM, OP_JRGEM, OP_JRLM, OP_JRLEM,
   OP_PUSH, OP_PUSHM, OP_PUSHC, OP_POP, OP_POPM, OP_PUSHS, OP_POPS]

/-- The cast `(Opcode)(instByte & 0x7F)`: the enumerator carrying the value,
or `none` when the value names no enumerator (the switch then takes its
`default:` label). -/
def Opcode.ofVal (v : Nat) : Option Opcode :=
  Opcode.all.find? (fun o => o.val == v)

/-- `Memory::MEM_SIZE`, the number of bytes of `Memory::Data`. -/
def MEM_SIZE : Nat := 0xFFFF

/-- Index of `Registers::PC` inside `Registers::aligned`. -/
def PC : Nat := 6

/-- Index of `Registers::SP` inside `Registers::aligned`. -/
def SP : Nat := 7

/-- The state `Execute` works on: the memory block, the CPU (register union
and halted flag), the running cycle budget, and the ghost access counter. -/
structure Machine where
  /-- `Memory::Data`, meaningful below `MEM_SIZE`. -/
  Data : Nat → Nat
  /-- `Registers::aligned`, meaningful below 8: R0..R5, PC, SP. -/
  aligned : Nat → Nat
  /-- `Registers::status`, the byte after the eight words. -/
  status : Nat
  /-- `CPU::halted`. -/
  halted : Bool
  /-- The `i64 cycles` budget of `Execute`. -/
  cycles : Int
  /-- Ghost: number of `Memory::operator[]` evaluations so far. -/
  accessed : Nat

/-- Pointwise update of an array viewed as a function. -/
def upd (f : Nat → Nat) (i v : Nat) : Nat → Nat :=
  fun j => if j = i then v else f j

/-- Computations of the emulator: a state transformer that may fault. -/
def Exec (α : Type) : Type := Machine → Except Fault (α × Machine)

instance : Monad Exec where
  pure a := fun s => .ok (a, s)
  bind m f := fun s =>
    match m s with
    | .ok (a, s1) => f a s1
    | .error e => .error e

/-- Conversion of an `int` result to `Word`: reduction modulo `2^16`. -/
def toWord (i : Int) : Nat := (i % 65536).toNat

/-- `Memory::operator[]` used as an rvalue. -/
def memGet (address : Nat) : Exec Nat := fun s =>
  if address < MEM_SIZE then
    .ok (s.Data address, { s with accessed := s.accessed + 1 })
  else .error .memoryIndex

/-- `Memory::operator[]` used as the target of an assignment of a `Byte`. -/
def memSet (address value : Nat) : Exec Unit := fun s =>
  if address < MEM_SIZE then
    .ok ((), { s with Data := upd s.Data address (value % 256), accessed := s.accessed + 1 })
  else .error .memoryIndex

/-- `Registers::operator[]` used as an rvalue: `return aligned[reg]`.  The
source has no bounds check; the test `reg < 8` marks a read outside
`Word aligned[8]`, reported as `Fault.registerIndex`. -/
def regGet (reg : Nat) : Exec Nat := fun s =>
  if reg < 8 then .ok (s.aligned reg, s) else .error .registerIndex

/-- `Registers::operator[]` used as the target of an assignment of a `Word`.
The source has no bounds check; the test `reg < 8` marks a store outside
`Word aligned[8]`, reported as `Fault.registerIndex`. -/
def regSet (reg value : Nat) : Exec Unit := fun s =>
  if reg < 8 then .ok ((), { s with aligned := upd s.aligned reg (value % 65536) })
  else .error .registerIndex

/-- The statements `cycles--` and `cycles -= 2`. -/
def charge (k : Int) : Exec Unit := fun s =>
  .ok ((), { s with cycles := s.cycles - k })

/-- The expression `mem[registers.PC++]`. -/
def memAtPCInc : Exec Nat := do
  let pc ← regGet PC
  regSet PC (pc + 1)
  memGet pc

/-- `Memory::Clear`: `memset(Data, 0, MEM_SIZE)`. -/
def Memory.Clear (s : Machine) : Machine :=
  { s with Data := fun a => if a < MEM_SIZE then 0 else s.Data a }

/-- `CPU::Reset`.  The final `memset(registers.aligned, 0, 6)` clears six
bytes, which are the three words `aligned[0..2]`. -/
def Reset (s : Machine) : Machine :=
  let s1 := Memory.Clear s
  let s2 := { s1 with aligned := upd s1.aligned PC 0 }
  let s3 := { s2 with aligned := upd s2.aligned SP 0xFFFF }
  { s3 with aligned := fun i => if 2 * i + 2 ≤ 6 then 0 else s3.aligned i }

/-- `CPU::FetchByte`. -/
def FetchByte : Exec Nat := do
  charge 1
  memAtPCInc

/-- `CPU::ReadByte` (both overloads). -/
def ReadByte (address : Nat) : Exec Nat := do
  charge 1
  memGet address

/-- `CPU::WriteByte`. -/
def WriteByte (address value : Nat) : Exec Unit := do
  memSet address value
  charge 1

/-- `CPU::StackPushByte`. -/
def StackPushByte (value : Nat) : Exec Unit := do
  let sp ← regGet SP
  regSet SP (toWord (sp - 1))
  let sp ← regGet SP
  WriteByte sp value

/-- `CPU::StackPopByte`. -/
def StackPopByte : Exec Nat := do
  let sp ← regGet SP
  let value ← ReadByte sp
  regSet SP (sp + 1)
  pure (value % 256)

/-- `CPU::FetchWord`. -/
def FetchWord : Exec Nat := do
  let lo ← memAtPCInc
  let hi ← memAtPCInc
  charge 2
  pure ((lo ||| (hi <<< 8)) % 65536)

/-- `CPU::ReadWord`; the index `address + 1` is converted to `Word`. -/
def ReadWord (address : Nat) : Exec Nat := do
  let lo ← memGet address
  let hi ← memGet ((address + 1) % 65536)
  charge 2
  pure ((lo ||| (hi <<< 8)) % 65536)

/-- `CPU::WriteWord`; the index `address + 1` is converted to `Word`. -/
def WriteWord (address value : Nat) : Exec Unit := do
  memSet address (value &&& 0xFF)
  memSet ((address + 1) % 65536) (value >>> 8)
  charge 2

/-- `CPU::StackPushWord`. -/
def StackPushWord (value : Nat) : Exec Unit := do
  let sp ← regGet SP
  regSet SP (toWord (sp - 2))
  let sp ← regGet SP
  WriteWord sp value

/-- `CPU::StackPopWord`. -/
def StackPopWord : Exec Nat := do
  let sp ← regGet SP
  let value ← ReadWord sp
  regSet SP (sp + 2)
  pure value

/-- The operand `byteFlag ? FetchByte(cycles, mem) : FetchWord(cycles, mem)`. -/
def fetchOperand (byteFlag : Bool) : Exec Nat :=
  if byteFlag then FetchByte else FetchWord

/-- The operand
`byteFlag ? ReadByte(cycles, mem, address) : ReadWord(cycles, mem, address)`. -/
def readOperand (byteFlag : Bool) (address : Nat) : Exec Nat :=
  if byteFlag then ReadByte address else ReadWord address

/-- The value `byteFlag ? StackPopByte(cycles, mem) : StackPopWord(cycles, mem)`. -/
def popOperand (byteFlag : Bool) : Exec Nat :=
  if byteFlag then StackPopByte else StackPopWord

/-- The statement
`byteFlag ? WriteByte(cycles, mem, address, value & 0xFF) : WriteWord(cycles, mem, address, value)`. -/
def writeOperand (byteFlag : Bool) (address value : Nat) : Exec Unit :=
  if byteFlag then WriteByte address (value &&& 0xFF) else WriteWord address value

/-- The four binary operators of the arithmetic cases, on `Word` operands
promoted to `int`; the result is converted back to `Word` by the assignment.
Division by zero has no result.  The product of two promoted `Word`s can
exceed `INT_MAX`; the embedding takes the mathematical product, whose
residue modulo `2^16` is what a two's-complement target stores. -/
inductive Arith where
  | add | sub | mul | div
  deriving DecidableEq

/-- Value of `a op b` before the conversion to `Word`. -/
def Arith.eval (op : Arith) (a b : Nat) : Except Fault Int :=
  match op with
  | .add => .ok ((a : Int) + b)
  | .sub => .ok ((a : Int) - b)
  | .mul => .ok ((a : Int) * b)
  | .div => if b = 0 then .error .divideByZero else .ok ((a / b : Nat) : Int)

/-- The statement `registers[reg] = registers[reg] op value`. -/
def arithInto (op : Arith) (reg value : Nat) : Exec Unit := do
  let r ← regGet reg
  match op.eval r value with
  | .ok v => regSet reg (toWord v)
  | .error e => fun _ => .error e

/-- Cases `OP_ADD`, `OP_SUB`, `OP_MUL`, `OP_DIV`. -/
def execRR (op : Arith) : Exec Unit := do
  let reg1 ← FetchByte
  let reg2 ← FetchByte
  let v ← regGet reg2
  arithInto op reg1 v

/-- Cases `OP_ADDC`, `OP_SUBC`, `OP_MULC`, `OP_DIVC`. -/
def execRC (op : Arith) (byteFlag : Bool) : Exec Unit := do
  let reg ← FetchByte
  let value ← fetchOperand byteFlag
  arithInto op reg value

/-- Cases `OP_ADDA`, `OP_SUBA`, `OP_MULA`, `OP_DIVA`. -/
def execRA (op : Arith) (byteFlag : Bool) : Exec Unit := do
  let reg ← FetchByte
  let address ← FetchWord
  let memValue ← readOperand byteFlag address
  arithInto op reg memValue

/-- The six comparisons of the conditional jumps. -/
inductive Cmp where
  | eq | ne | gt | ge | lt | le
  deriving DecidableEq

/-- Value of `a cmp b` on `Word` operands. -/
def Cmp.eval (c : Cmp) (a b : Nat) : Bool :=
  match c with
  | .eq => a == b
  | .ne => a != b
  | .gt => decide (a > b)
  | .ge => decide (a ≥ b)
  | .lt => decide (a < b)
  | .le => decide (a ≤ b)

/-- Cases `OP_JRE` .. `OP_JRLE`. -/
def execJRC (c : Cmp) (byteFlag : Bool) : Exec Unit := do
  let reg ← FetchByte
  let value ← fetchOperand byteFlag
  let address ← FetchWord
  let r ← regGet reg
  if c.eval r value then regSet PC address else pure ()

/-- Cases `OP_JREM` .. `OP_JRLEM`. -/
def execJRM (c : Cmp) (byteFlag : Bool) : Exec Unit := do
  let reg ← FetchByte
  let memAddress ← FetchWord
  let memValue ← readOperand byteFlag memAddress
  let jumpAddress ← FetchWord
  let r ← regGet reg
  if c.eval r memValue then regSet PC jumpAddress else pure ()

/-- Case `OP_LDR`; also the tail of case `OP_UXT`, which has no `break`. -/
def execLDR : Exec Unit := do
  let reg1 ← FetchByte
  let reg2 ← FetchByte
  let v ← regGet reg2
  regSet reg1 v

/-- The body of the switch of `CPU::Execute` for a decoded instruction. -/
def execute (instruction : Option Opcode) (byteFlag : Bool) : Exec Unit :=
  match instruction with
  | some OP_NOP => pure ()
  | some OP_RESET => fun s => .ok ((), Reset s)
  | some OP_HALT => fun s => .ok ((), { s with halted := true })
  | some OP_INC => do
      let reg ← FetchByte
      let r ← regGet reg
      regSet reg (r + 1)
  | some OP_INCM => do
      let address ← FetchWord
      let value ← (if byteFlag then ReadByte address
                   else (do let w ← ReadWord address; pure ((w + 1) % 65536)) : Exec Nat)
      writeOperand byteFlag address value
  | some OP_DEC => do
      let reg ← FetchByte
      let r ← regGet reg
      regSet reg (toWord (r - 1))
  | some OP_DECM => do
      let address ← FetchWord
      let value ← (if byteFlag then ReadByte address
                   else (do let w ← ReadWord address; pure (toWord (w - 1))) : Exec Nat)
      writeOperand byteFlag address value
  | some OP_ADD => execRR .add
  | some OP_ADDC => execRC .add byteFlag
  | some OP_ADDA => execRA .add byteFlag
  | some OP_SUB => execRR .sub
  | some OP_SUBC => execRC .sub byteFlag
  | some OP_SUBA => execRA .sub byteFlag
  | some OP_MUL => execRR .mul
  | some OP_MULC => execRC .mul byteFlag
  | some OP_MULA => execRA .mul byteFlag
  | some OP_DIV => execRR .div
  | some OP_DIVC => execRC .div byteFlag
  | some OP_DIVA => execRA .div byteFlag
  | some OP_UXT => do
      let reg ← FetchByte
      let r ← regGet reg
      regSet reg (r &&& 0xFF)
      execLDR
  | some OP_LDR => execLDR
  | some OP_LDC => do
      let reg ← FetchByte
      let v ← fetchOperand byteFlag
      regSet reg v
  | some OP_LDM => do
      let reg ← FetchByte
      let address ← FetchWord
      let v ← readOperand byteFlag address
      regSet reg v
  | some OP_JMP => do
      let t ← FetchWord
      regSet PC t
  | some OP_JRZ => do
      let reg ← FetchByte
      let r ← regGet reg
      if r = 0 then
        let t ← FetchWord
        regSet PC t
      else
        let pc ← regGet PC
        regSet PC (pc + 2)
  | some OP_JRE => execJRC .eq byteFlag
  | some OP_JRN => execJRC .ne byteFlag
  | some OP_JRG => execJRC .gt byteFlag
  | some OP_JRGE => execJRC .ge byteFlag
  | some OP_JRL => execJRC .lt byteFlag
  | some OP_JRLE => execJRC .le byteFlag
  | some OP_JREM => execJRM .eq byteFlag
  | some OP_JRNM => execJRM .ne byteFlag
  | some OP_JRGM => execJRM .gt byteFlag
  | some OP_JRGEM => execJRM .ge byteFlag
  | some OP_JRLM => execJRM .lt byteFlag
  | some OP_JRLEM => execJRM .le byteFlag
  | some OP_JSR => do
      let newPC ← FetchWord
      let pc ← regGet PC
      StackPushWord pc
      regSet PC newPC
  | some OP_RTN => do
      let v ← StackPopWord
      regSet PC v
  | some OP_PUSH => do
      let reg ← FetchByte
      let r ← regGet reg
      StackPushWord r
  | some OP_PUSHM => do
      let reg ← FetchByte
      let address ← FetchWord
      let _memValue ← readOperand byteFlag address
      let r ← regGet reg
      StackPushWord r
  | some OP_PUSHC => do
      let reg ← FetchByte
      let _value ← fetchOperand byteFlag
      let r ← regGet reg
      StackPushWord r
  | some OP_POP => do
      let reg ← FetchByte
      let v ← popOperand byteFlag
      regSet reg v
  | some OP_POPM => do
      let address ← FetchWord
      let stackValue ← popOperand byteFlag
      writeOperand byteFlag address stackValue
  | _ => fun _ => .error .illegalInstruction

/-- Run a computation from a state and keep the final state. -/
def Exec.run (m : Exec Unit) (s : Machine) : Except Fault Machine :=
  match m s with
  | .ok (_, s1) => .ok s1
  | .error e => .error e

/-- One iteration of the loop body of `CPU::Execute`: fetch the instruction
byte, split it into opcode and width flag, run the switch. -/
def step (s : Machine) : Except Fault Machine :=
  Exec.run (do
      let instByte ← FetchByte
      let instruction := Opcode.ofVal (instByte &&& 0x7F)
      let byteFlag := (instByte >>> 7) == 1
      execute instruction byteFlag) s

/-- The loop `while (cycles > 0 && !halted)` of `CPU::Execute`, unrolled at
most `fuel` times. -/
def ExecuteLoop : Nat → Machine → Except Fault Machine
  | 0, s => .ok s
  | fuel + 1, s =>
    if 0 < s.cycles ∧ s.halted = false then
      match step s with
      | .ok s1 => ExecuteLoop fuel s1
      | .error e => .error e
    else .ok s

/-- `CPU::Execute(cycles, mem)`.  Every iteration lowers the budget by at
least one (the opcode fetch), so `cycles` iterations always suffice. -/
def Execute (cycles : Int) (s : Machine) : Except Fault Machine :=
  ExecuteLoop cycles.toNat { s with cycles := cycles }

/-- The state of `main` before its stores: `Memory mem{}; CPU cpu{};`
value-initialised, then `cpu.Reset(mem)`. -/
def resetMachine : Machine :=
  Reset { Data := fun _ => 0, aligned := fun _ => 0, status := 0,
          halted := false, cycles := 0, accessed := 0 }

/-- The host stores `mem[base + i] = bytes[i]` that place a program image. -/
def loadImage (s : Machine) (base : Nat) : List Nat → Machine
  | [] => s
  | b :: rest => loadImage { s with Data := upd s.Data base (b % 256) } (base + 1) rest

/-! ## Definitions used to state and prove the properties -/

/-- A computation that, whenever it completes, has lowered `cycles` by `c`
and raised the ghost access counter by `a`. -/
def Costs {α : Type} (m : Exec α) (c a : Nat) : Prop :=
  ∀ s x s1, m s = .ok (x, s1) → s1.cycles = s.cycles - c ∧ s1.accessed = s.accessed + a

/-- Bytes of an operand of the selected width: 1 in byte form, 2 in word form. -/
def width (byteFlag : Bool) : Nat := if byteFlag then 1 else 2

/-- Bytes the handler of `op` transfers after the opcode byte, for every
handled opcode but `OP_JRZ` (whose count depends on the register tested). -/
def handlerBytes (op : Opcode) (W : Bool) : Nat :=
  match op with
  | OP_NOP | OP_RESET | OP_HALT => 0
  | OP_INC | OP_DEC => 1
  | OP_INCM | OP_DECM => 2 + width W + width W
  | OP_ADD | OP_SUB | OP_MUL | OP_DIV | OP_LDR => 2
  | OP_ADDC | OP_SUBC | OP_MULC | OP_DIVC | OP_LDC => 1 + width W
  | OP_ADDA | OP_SUBA | OP_MULA | OP_DIVA | OP_LDM => 3 + width W
  | OP_UXT => 3
  | OP_JMP => 2
  | OP_JRE | OP_JRN | OP_JRG | OP_JRGE | OP_JRL | OP_JRLE => 3 + width W
  | OP_JREM | OP_JRNM | OP_JRGM | OP_JRGEM | OP_JRLM | OP_JRLEM => 5 + width W
  | OP_JSR => 4
  | OP_RTN => 2
  | OP_PUSH => 3
  | OP_PUSHM => 5 + width W
  | OP_PUSHC => 3 + width W
  | OP_POP => 1 + width W
  | OP_POPM => 2 + width W + width W
  | _ => 0

/-- The instruction byte the next step fetches. -/
def instByte (s : Machine) : Nat := s.Data (s.aligned PC)

/-- The opcode the next step decodes: `(Opcode)(instByte & 0x7F)`. -/
def opcodeOf (s : Machine) : Option Opcode := Opcode.ofVal (instByte s &&& 0x7F)

/-- The width flag the next step decodes: `(instByte >> 7) == 1`. -/
def byteFlagOf (s : Machine) : Bool := (instByte s >>> 7) == 1

/-- The condition `registers[FetchByte(cycles, mem)] == 0` that case `OP_JRZ`
evaluates, as a function of the state at the start of the step. -/
def jrzTaken (s : Machine) : Bool :=
  match (do let _ ← FetchByte; let reg ← FetchByte; regGet reg : Exec Nat) s with
  | .ok (r, _) => r == 0
  | .error _ => false

/-- The cycle table of the specification, following its words: cycles per
instruction in byte form (`W = true`) and word form, `none` for an opcode the
table does not list. -/
def claimedCycles (op : Opcode) (W taken : Bool) : Option Nat :=
  match op with
  | OP_NOP | OP_HALT => some 1
  | OP_INC | OP_DEC => some 2
  | OP_ADD | OP_SUB | OP_MUL | OP_DIV | OP_LDR => some 3
  | OP_ADDC | OP_SUBC | OP_MULC | OP_DIVC | OP_LDC => some (if W then 3 else 4)
  | OP_ADDA | OP_SUBA | OP_MULA | OP_DIVA | OP_LDM => some (if W then 5 else 6)
  | OP_INCM | OP_DECM => some (if W then 5 else 7)
  | OP_JMP => some 3
  | OP_JSR => some 5
  | OP_RTN => some 3
  | OP_JRZ => some (if taken then 4 else 2)
  | OP_JRE | OP_JRN | OP_JRG | OP_JRGE | OP_JRL | OP_JRLE => some (if W then 5 else 6)
  | OP_JREM | OP_JRNM | OP_JRGM | OP_JRGEM | OP_JRLM | OP_JRLEM => some (if W then 7 else 8)
  | OP_PUSH => some 4
  | OP_POP => some (if W then 3 else 4)
  | OP_POPM => some (if W then 5 else 7)
  | _ => none

/-- The state after one step, or the state itself when the step faults. -/
def stepState (s : Machine) : Machine :=
  match step s with
  | .ok s1 => s1
  | .error _ => s

/-- The result is a returned state that satisfies `P`. -/
def Returns (r : Except Fault Machine) (P : Machine → Prop) : Prop :=
  match r with
  | .ok s => P s
  | .error _ => False

/-- What the scenarios observe of a run: R0, PC, the halted flag and the
cycle counter of the returned state, or `none` for a fault. -/
def observe (r : Except Fault Machine) : Option (Nat × Nat × Bool × Int) :=
  match r with
  | .ok s => some (s.aligned 0, s.aligned PC, s.halted, s.cycles)
  | .error _ => none

/-- The program `INC R0; JRN R0, n, 0x0000; HALT` as `main` stores it, with
the comparison constant `n` in place of `0x0010`. -/
def incLoopImage (n : Nat) : List Nat :=
  [OP_INC.val, 0x00, OP_JRN.val, 0x00, n % 256, n / 256, 0x00, 0x00, OP_HALT.val]

/-- The reset machine with the increment loop placed at address 0. -/
def incLoopStart (n : Nat) : Machine := loadImage resetMachine 0 (incLoopImage n)

/-- The increment loop is in memory, `R0 = k`, `PC = pc`, the machine runs
and `c` cycles remain. -/
def LoopAt (n k pc : Nat) (c : Int) (s : Machine) : Prop :=
  s.Data 0 = 0x10 ∧ s.Data 1 = 0 ∧ s.Data 2 = 0x45 ∧ s.Data 3 = 0 ∧
  s.Data 4 = n % 256 ∧ s.Data 5 = n / 256 ∧ s.Data 6 = 0 ∧ s.Data 7 = 0 ∧
  s.Data 8 = 0x7F ∧ s.aligned 0 = k ∧ s.aligned PC = pc ∧ s.halted = false ∧ s.cycles = c

/-- What the increment loop leaves behind: `R0 = n`, halted, `PC = 9`, no
cycle left. -/
def LoopDone (n : Nat) (s : Machine) : Prop :=
  s.aligned 0 = n ∧ s.halted = true ∧ s.aligned PC = 9 ∧ s.cycles = 0

/-- The byte image of the specification's scenario 2, whose third byte is
`0x47`. -/
def specLoopImage : List Nat := [0x10, 0x00, 0x47, 0x00, 0x10, 0x00, 0x00, 0x00, 0x7F]

/-- The same image with `0x45`, the value of `OP_JRN`, as its third byte. -/
def jrnLoopImage : List Nat := [0x10, 0x00, 0x45, 0x00, 0x10, 0x00, 0x00, 0x00, 0x7F]

/-- A machine with garbage in memory and registers, about to run `RESET`. -/
def dirtyMachine : Machine :=
  { Data := fun a => if a = 0x20 then 0x7E else 0xAB
    aligned := fun i => if i = PC then 0x20 else 0x1234
    status := 0x81, halted := true, cycles := 5, accessed := 0 }

/-- A machine whose registers are all 0 and whose status byte is `0x81`. -/
def flaggedMachine : Machine :=
  { Data := fun _ => 0, aligned := fun _ => 0, status := 0x81,
    halted := false, cycles := 0, accessed := 0 }

/-- A halted machine with a positive amount of work in front of it. -/
def haltedMachine : Machine :=
  { Data := fun _ => 0, aligned := fun _ => 0, status := 0,
    halted := true, cycles := 0, accessed := 0 }

/-- A computation that never ends in the illegal-instruction fault. -/
def NeverIllegal {α : Type} (m : Exec α) : Prop :=
  ∀ s, m s ≠ .error .illegalInstruction

/-- The enumerators that have a `case` label in the switch of `CPU::Execute`. -/
def Opcode.handled : Opcode → Bool
  | OP_CMP | OP_CMPA => false
  | OP_STRM | OP_STMM | OP_STCM | OP_SWPM | OP_SWPR | OP_SWPRM => false
  | OP_PUSHS | OP_POPS => false
  | _ => true

/-- The opcode decoded in `s` has a `case` label in the switch. -/
def dispatched (s : Machine) : Bool :=
  match opcodeOf s with
  | some op => op.handled
  | none => false

/-- The opcode values of the specification's table (section 4.4). -/
def specOpcodes : List Nat :=
  [0x00, 0x01, 0x02, 0x03, 0x04, 0x05, 0x06, 0x07, 0x08, 0x09, 0x0A, 0x0B, 0x0C,
   0x0E, 0x0F, 0x10, 0x11, 0x12, 0x13, 0x20, 0x30, 0x31, 0x32,
   0x40, 0x41, 0x42, 0x43, 0x44, 0x45, 0x46, 0x47, 0x48, 0x49,
   0x4A, 0x4B, 0x4C, 0x4D, 0x4E, 0x4F,
   0x60, 0x63, 0x64, 0x65, 0x66, 0x7E, 0x7F]

/-- The opcode values of the `case` labels of the switch of `CPU::Execute`. -/
def caseOpcodes : List Nat :=
  [0x00, 0x01, 0x02, 0x03, 0x04, 0x05, 0x06, 0x07, 0x08, 0x09, 0x0A, 0x0B, 0x0C,
   0x10, 0x11, 0x12, 0x13, 0x20, 0x30, 0x31, 0x32,
   0x40, 0x41, 0x42, 0x43, 0x44, 0x45, 0x46, 0x47, 0x48, 0x49,
   0x4A, 0x4B, 0x4C, 0x4D, 0x4E, 0x4F,
   0x60, 0x61, 0x62, 0x63, 0x64, 0x7E, 0x7F]

/-- The opcode values `CMP`, `CMPA`, `PUSHS`, `POPS`: enumerators documented
in `enum Opcode` that have no `case` label. -/
def undispatchedOpcodes : List Nat := [0x0E, 0x0F, 0x65, 0x66]

/-- The reset machine with `[0x61, 0x00, 0x00, 0x00]` at address 0:
`PUSHM R0, 0x0000`. -/
def pushmMachine : Machine := loadImage resetMachine 0 [0x61, 0x00, 0x00, 0x00]

/-- The reset machine with status byte `0x81` and `[0x65, 0x66]` at address
0: `PUSHS; POPS`. -/
def pushsMachine : Machine := loadImage { resetMachine with status := 0x81 } 0 [0x65, 0x66]

/-- The state `s` after its instruction stream was read up to address `q`
and `k` bytes were transferred and charged: PC moved to `q`, `cycles` lowered
by `k`, the ghost counter raised by `k`; nothing else differs from `s`. -/
def adv (s : Machine) (q k : Nat) : Machine :=
  { s with aligned := upd s.aligned PC q, cycles := s.cycles - (k : Int),
           accessed := s.accessed + k }

/-- The operand of the selected width that starts at address `a`: one byte
in byte form, a little-endian word in word form. -/
def operandAt (s : Machine) (a : Nat) (W : Bool) : Nat :=
  if W then s.Data a else (s.Data a ||| s.Data (a + 1) <<< 8) % 65536

/-- Apart from register `reg`, the PC and the cycle accounting, `s1` is `s`:
same memory, same other registers (SP included), same status byte, same
halted flag. -/
def SameExcept (s s1 : Machine) (reg : Nat) : Prop :=
  (∀ i, i ≠ reg → i ≠ PC → s1.aligned i = s.aligned i) ∧
  s1.Data = s.Data ∧ s1.status = s.status ∧ s1.halted = s.halted

/-- The register file a handler reads once the PC stands at `q`: that of
`s` with `aligned[PC] = q`. -/
def regsAt (s : Machine) (q : Nat) : Nat → Nat := upd s.aligned PC q

/-- Outcome of a division step in `s` that writes register `reg`, reads its
registers with the PC at `q`, and divides by `d`: a divide-by-zero fault,
which also ends `Execute`, when `d = 0`; otherwise a returned state whose
register `reg` holds the quotient. -/
def DivOutcome (s : Machine) (reg q d : Nat) : Prop :=
  (d = 0 → step s = .error .divideByZero ∧
    ∀ fuel, 0 < s.cycles → s.halted = false →
      ExecuteLoop (fuel + 1) s = .error .divideByZero) ∧
  (d ≠ 0 → ∃ s1, step s = .ok s1 ∧ s1.aligned reg = regsAt s q reg / d)

/-- The reset machine with `R0 = 0x00FF` and `ADDC.b R0, 0x01` at address 0. -/
def addcByteMachine : Machine :=
  loadImage { resetMachine with aligned := upd resetMachine.aligned 0 0xFF } 0 [0x82, 0x00, 0x01]

/-- The program of the specification's scenario 6:
`LDC R0, 1; LDC R1, 0; DIV R0, R1`. -/
def divZeroImage : List Nat :=
  [0x31, 0x00, 0x01, 0x00, 0x31, 0x01, 0x00, 0x00, 0x0A, 0x00, 0x01]

/-- The reset machine holding scenario 6. -/
def divZeroStart : Machine := loadImage resetMachine 0 divZeroImage

/-- The state of scenario 6 after its two `LDC`, about to run `DIV R0, R1`. -/
def divZeroAtDIV : Machine := stepState (stepState divZeroStart)

/-- The reset machine with `R0 = 10` and `DIVC R0, 0x0003` (bytes
`[0x0B, 0x00, 0x03, 0x00]`) at address 0. -/
def divcMachine : Machine :=
  loadImage { resetMachine with
    aligned := upd resetMachine.aligned 0 10 } 0 [0x0B, 0x00, 0x03, 0x00]

/-- Every completed run of `m` relates its first state to its last by `R`. -/
def Keeps (R : Machine → Machine → Prop) {α : Type} (m : Exec α) : Prop :=
  ∀ s x s1, m s = .ok (x, s1) → R s s1

/-- A reflexive and transitive relation on states that each of the five
primitive state changes respects: a memory read, a memory write, a register
read, a register write, a charge. -/
structure StepInvariant (R : Machine → Machine → Prop) : Prop where
  refl : ∀ s, R s s
  trans : ∀ a b c, R a b → R b c → R a c
  on_memGet : ∀ address, Keeps R (memGet address)
  on_memSet : ∀ address value, Keeps R (memSet address value)
  on_regGet : ∀ reg, Keeps R (regGet reg)
  on_regSet : ∀ reg value, Keeps R (regSet reg value)
  on_charge : ∀ k, Keeps R (charge k)

/-- The halted flag is the same in both states. -/
def SameHalted (s s1 : Machine) : Prop := s1.halted = s.halted

/-- The registers R0..R5, PC, SP of a returned state, or `none` for a fault. -/
def registersOf (r : Except Fault Machine) : Option (List Nat) :=
  match r with
  | .ok s => some ((List.range 8).map s.aligned)
  | .error _ => none

/-- The memory cell at `a` of a returned state, or `none` for a fault. -/
def cellOf (a : Nat) (r : Except Fault Machine) : Option Nat :=
  match r with
  | .ok s => some (s.Data a)
  | .error _ => none

/-- The reset machine with `JMP 0xFFFF` at address 0. -/
def jmpEndMachine : Machine := loadImage resetMachine 0 [0x42, 0xFF, 0xFF]

/-- The reset machine with `R0 = 0x1234`, `R2 = 0x5678` and the bytes
`[0x20, 0x00, 0x01, 0x02]` at address 0: `UXT R0` followed by two bytes. -/
def uxtMachine : Machine :=
  loadImage { resetMachine with
    aligned := upd (upd resetMachine.aligned 0 0x1234) 2 0x5678 } 0 [0x20, 0x00, 0x01, 0x02]

/-- The reset machine with the byte 5 at address 0x0020 and `INCM.b 0x0020`
(bytes `[0x91, 0x20, 0x00]`) at address 0. -/
def incmByteMachine : Machine :=
  loadImage (loadImage resetMachine 0 [0x91, 0x20, 0x00]) 0x20 [5]

/-- The same with `DECM.b 0x0020` (bytes `[0x93, 0x20, 0x00]`). -/
def decmByteMachine : Machine :=
  loadImage (loadImage resetMachine 0 [0x93, 0x20, 0x00]) 0x20 [5]

/-- The reset machine with the word `0x00FF` at address 0x0020 and
`INCM 0x0020` (bytes `[0x11, 0x20, 0x00]`) at address 0. -/
def incmWordMachine : Machine :=
  loadImage (loadImage resetMachine 0 [0x11, 0x20, 0x00]) 0x20 [0xFF, 0x00]

/-- The same with `DECM 0x0020` (bytes `[0x13, 0x20, 0x00]`). -/
def decmWordMachine : Machine :=
  loadImage (loadImage resetMachine 0 [0x13, 0x20, 0x00]) 0x20 [0xFF, 0x00]

/-- The reset machine with `LDC.b R2, 0xAB` (bytes `[0xB1, 0x02, 0xAB]`) at
address 0: the specification's scenario 5. -/
def ldcByteMachine : Machine := loadImage resetMachine 0 [0xB1, 0x02, 0xAB]

/-- The reset machine with `LDC R1, 0x1234` (bytes `[0x31, 0x01, 0x34, 0x12]`)
at address 0. -/
def ldcWordMachine : Machine := loadImage resetMachine 0 [0x31, 0x01, 0x34, 0x12]

/-- The reset machine with `R0 = 0xFFFF`, `R1 = 2` and `ADD R0, R1` (bytes
`[0x01, 0x00, 0x01]`) at address 0. -/
def addMachine : Machine :=
  loadImage { resetMachine with
    aligned := upd (upd resetMachine.aligned 0 0xFFFF) 1 2 } 0 [0x01, 0x00, 0x01]

/-- The reset machine with `R0 = 0x8000` and `JRG R0, 0x0001, 0x1234` (bytes
`[0x46, 0x00, 0x01, 0x00, 0x34, 0x12]`) at address 0. -/
def jrgMachine : Machine :=
  loadImage { resetMachine with
    aligned := upd resetMachine.aligned 0 0x8000 } 0 [0x46, 0x00, 0x01, 0x00, 0x34, 0x12]

/-- The reset machine with `JSR 0x0010` (bytes `[0x40, 0x10, 0x00]`) at
address 0 and `RTN` (byte `0x41`) at address 0x0010. -/
def callReturnMachine : Machine :=
  loadImage (loadImage resetMachine 0 [0x40, 0x10, 0x00]) 0x10 [0x41]

/-- The specification's scenario 3 on the reset machine: `JSR 0x0010; HALT`
at address 0 and `LDC R1, 0x1234; RTN` at address 0x0010. -/
def subroutineMachine : Machine :=
  loadImage (loadImage resetMachine 0 [0x40, 0x10, 0x00, 0x7F]) 0x10
    [0x31, 0x01, 0x34, 0x12, 0x41]

/-- The reset machine with `HALT` (byte `0x7F`) at address 0: the
specification's scenario 1. -/
def haltMachine : Machine := loadImage resetMachine 0 [0x7F]

/-- The reset machine with `JRZ R0, 0x1234` (bytes `[0x43, 0x00, 0x34, 0x12]`)
at address 0; `R0 = 0`, so the jump is taken. -/
def jrzTakenMachine : Machine := loadImage resetMachine 0 [0x43, 0x00, 0x34, 0x12]

/-- The same `JRZ R0, 0x1234` with `R0 = 5`: the jump is not taken. -/
def jrzSkipMachine : Machine :=
  loadImage { resetMachine with
    aligned := upd resetMachine.aligned 0 5 } 0 [0x43, 0x00, 0x34, 0x12]

/-- The reset machine with the word-form `JREM R0, 0x0010, 0x0020` (bytes
`[0x4A, 0x00, 0x10, 0x00, 0x20, 0x00]`) at address 0. -/
def jremMachine : Machine := loadImage resetMachine 0 [0x4A, 0x00, 0x10, 0x00, 0x20, 0x00]

theorem Exec.bind_apply {α β : Type} (m : Exec α) (f : α → Exec β) (s : Machine) :
    (m >>= f) s = match m s with
      | .ok (a, s1) => f a s1
      | .error e => .error e := rfl

theorem Exec.pure_apply {α : Type} (a : α) (s : Machine) :
    (pure a : Exec α) s = .ok (a, s) := rfl

theorem Exec.bind_ok {α β : Type} {m : Exec α} {f : α → Exec β} {s s2 : Machine} {b : β}
    (h : (m >>= f) s = .ok (b, s2)) :
    ∃ a s1, m s = .ok (a, s1) ∧ f a s1 = .ok (b, s2) := by
  rw [Exec.bind_apply] at h
  cases hm : m s with
  | error e => rw [hm] at h; cases h
  | ok p =>
    obtain ⟨a, s1⟩ := p
    rw [hm] at h
    exact ⟨a, s1, rfl, h⟩

theorem costs_pure {α : Type} (x : α) : Costs (pure x : Exec α) 0 0 := by
  intro s y s1 h
  rw [Exec.pure_apply] at h
  cases h
  simp

theorem costs_bind {α β : Type} {m : Exec α} {f : α → Exec β} {c a d b : Nat}
    (h1 : Costs m c a) (h2 : ∀ x, Costs (f x) d b) :
    Costs (m >>= f) (c + d) (a + b) := by
  intro s y s2 h
  obtain ⟨x, s1, hm, hf⟩ := Exec.bind_ok h
  obtain ⟨hc1, ha1⟩ := h1 s x s1 hm
  obtain ⟨hc2, ha2⟩ := h2 x s1 y s2 hf
  constructor
  · rw [hc2, hc1]; push_cast; ring
  · rw [ha2, ha1]; ring

theorem costs_error {α : Type} (e : Fault) (c a : Nat) :
    Costs (fun _ => .error e : Exec α) c a := by
  intro s x s1 h
  cases h

theorem costs_memGet (address : Nat) : Costs (memGet address) 0 1 := by
  intro s x s1 h
  unfold memGet at h
  split at h
  · cases h; simp
  · cases h

theorem costs_memSet (address value : Nat) : Costs (memSet address value) 0 1 := by
  intro s x s1 h
  unfold memSet at h
  split at h
  · cases h; simp
  · cases h

theorem costs_regGet (reg : Nat) : Costs (regGet reg) 0 0 := by
  intro s x s1 h
  unfold regGet at h
  split at h
  · cases h; simp
  · cases h

theorem costs_regSet (reg value : Nat) : Costs (regSet reg value) 0 0 := by
  intro s x s1 h
  unfold regSet at h
  split at h
  · cases h; simp
  · cases h

theorem costs_charge_one : Costs (charge 1) 1 0 := by
  intro s x s1 h
  cases h
  simp

theorem costs_charge_two : Costs (charge 2) 2 0 := by
  intro s x s1 h
  cases h
  simp

theorem costs_memAtPCInc : Costs memAtPCInc 0 1 :=
  costs_bind (costs_regGet _) fun _ =>
    costs_bind (costs_regSet _ _) fun _ => costs_memGet _

theorem costs_FetchByte : Costs FetchByte 1 1 :=
  costs_bind costs_charge_one fun _ => costs_memAtPCInc

theorem costs_ReadByte (address : Nat) : Costs (ReadByte address) 1 1 :=
  costs_bind costs_charge_one fun _ => costs_memGet _

theorem costs_WriteByte (address value : Nat) : Costs (WriteByte address value) 1 1 :=
  costs_bind (costs_memSet _ _) fun _ => costs_charge_one

theorem costs_FetchWord : Costs FetchWord 2 2 :=
  costs_bind costs_memAtPCInc fun _ =>
    costs_bind costs_memAtPCInc fun _ =>
      costs_bind costs_charge_two fun _ => costs_pure _

theorem costs_ReadWord (address : Nat) : Costs (ReadWord address) 2 2 :=
  costs_bind (costs_memGet _) fun _ =>
    costs_bind (costs_memGet _) fun _ =>
      costs_bind costs_charge_two fun _ => costs_pure _

theorem costs_WriteWord (address value : Nat) : Costs (WriteWord address value) 2 2 :=
  costs_bind (costs_memSet _ _) fun _ =>
    costs_bind (costs_memSet _ _) fun _ => costs_charge_two

theorem costs_StackPushByte (value : Nat) : Costs (StackPushByte value) 1 1 :=
  costs_bind (costs_regGet _) fun _ =>
    costs_bind (costs_regSet _ _) fun _ =>
      costs_bind (costs_regGet _) fun _ => costs_WriteByte _ _

theorem costs_StackPopByte : Costs StackPopByte 1 1 :=
  costs_bind (costs_regGet _) fun _ =>
    costs_bind (costs_ReadByte _) fun _ =>
      costs_bind (costs_regSet _ _) fun _ => costs_pure _

theorem costs_StackPushWord (value : Nat) : Costs (StackPushWord value) 2 2 :=
  costs_bind (costs_regGet _) fun _ =>
    costs_bind (costs_regSet _ _) fun _ =>
      costs_bind (costs_regGet _) fun _ => costs_WriteWord _ _

theorem costs_StackPopWord : Costs StackPopWord 2 2 :=
  costs_bind (costs_regGet _) fun _ =>
    costs_bind (costs_ReadWord _) fun _ =>
      costs_bind (costs_regSet _ _) fun _ => costs_pure _

theorem costs_fetchOperand (W : Bool) : Costs (fetchOperand W) (width W) (width W) := by
  cases W
  · exact costs_FetchWord
  · exact costs_FetchByte

theorem costs_readOperand (W : Bool) (address : Nat) :
    Costs (readOperand W address) (width W) (width W) := by
  cases W
  · exact costs_ReadWord _
  · exact costs_ReadByte _

theorem costs_popOperand (W : Bool) : Costs (popOperand W) (width W) (width W) := by
  cases W
  · exact costs_StackPopWord
  · exact costs_StackPopByte

theorem costs_writeOperand (W : Bool) (address value : Nat) :
    Costs (writeOperand W address value) (width W) (width W) := by
  cases W
  · exact costs_WriteWord _ _
  · exact costs_WriteByte _ _

theorem costs_cast {α : Type} {m : Exec α} {c a c1 a1 : Nat} (h : Costs m c a)
    (hc : c = c1) (ha : a = a1) : Costs m c1 a1 := by
  subst hc; subst ha; exact h

theorem costs_arithInto (op : Arith) (reg value : Nat) : Costs (arithInto op reg value) 0 0 := by
  refine costs_cast (costs_bind (d := 0) (b := 0) (costs_regGet reg) fun r => ?_) rfl rfl
  cases h : op.eval r value with
  | ok v => simp only [h]; exact costs_regSet _ _
  | error e => simp only [h]; exact costs_error _ _ _

theorem costs_execRR (op : Arith) : Costs (execRR op) 2 2 :=
  costs_bind costs_FetchByte fun _ =>
    costs_bind costs_FetchByte fun _ =>
      costs_bind (costs_regGet _) fun _ => costs_arithInto _ _ _

theorem costs_execRC (op : Arith) (W : Bool) :
    Costs (execRC op W) (1 + width W) (1 + width W) :=
  costs_cast
    (costs_bind costs_FetchByte fun _ =>
      costs_bind (costs_fetchOperand W) fun _ => costs_arithInto _ _ _)
    (by omega) (by omega)

theorem costs_execRA (op : Arith) (W : Bool) :
    Costs (execRA op W) (3 + width W) (3 + width W) :=
  costs_cast
    (costs_bind costs_FetchByte fun _ =>
      costs_bind costs_FetchWord fun _ =>
        costs_bind (costs_readOperand W _) fun _ => costs_arithInto _ _ _)
    (by omega) (by omega)

theorem costs_condJump (b : Bool) (t : Nat) :
    Costs (if b then regSet PC t else pure ()) 0 0 := by
  cases b
  · exact costs_pure _
  · exact costs_regSet _ _

theorem costs_execJRC (c : Cmp) (W : Bool) :
    Costs (execJRC c W) (3 + width W) (3 + width W) :=
  costs_cast
    (costs_bind costs_FetchByte fun _ =>
      costs_bind (costs_fetchOperand W) fun _ =>
        costs_bind costs_FetchWord fun _ =>
          costs_bind (costs_regGet _) fun _ => costs_condJump _ _)
    (by omega) (by omega)

theorem costs_execJRM (c : Cmp) (W : Bool) :
    Costs (execJRM c W) (5 + width W) (5 + width W) :=
  costs_cast
    (costs_bind costs_FetchByte fun _ =>
      costs_bind costs_FetchWord fun _ =>
        costs_bind (costs_readOperand W _) fun _ =>
          costs_bind costs_FetchWord fun _ =>
            costs_bind (costs_regGet _) fun _ => costs_condJump _ _)
    (by omega) (by omega)

theorem costs_execLDR : Costs execLDR 2 2 :=
  costs_bind costs_FetchByte fun _ =>
    costs_bind costs_FetchByte fun _ =>
      costs_bind (costs_regGet _) fun _ => costs_regSet _ _

theorem costs_readInc (W : Bool) (address : Nat) (g : Nat → Nat) :
    Costs (if W then ReadByte address
           else (do let w ← ReadWord address; pure (g w) : Exec Nat)) (width W) (width W) := by
  cases W
  · exact costs_cast (costs_bind (costs_ReadWord _) fun _ => costs_pure _) rfl rfl
  · exact costs_ReadByte _

theorem costs_execute (op : Opcode) (W : Bool) (hop : op ≠ OP_JRZ) :
    Costs (execute (some op) W) (handlerBytes op W) (handlerBytes op W) := by
  cases op
  case OP_JRZ => exact absurd rfl hop
  case OP_NOP => exact costs_pure _
  case OP_RESET => intro s x s1 h; cases h; simp [handlerBytes, Reset, Memory.Clear]
  case OP_HALT => intro s x s1 h; cases h; simp [handlerBytes]
  case OP_INC =>
    exact costs_bind costs_FetchByte fun _ =>
      costs_bind (costs_regGet _) fun _ => costs_regSet _ _
  case OP_DEC =>
    exact costs_bind costs_FetchByte fun _ =>
      costs_bind (costs_regGet _) fun _ => costs_regSet _ _
  case OP_INCM =>
    exact costs_cast (costs_bind costs_FetchWord fun address =>
      costs_bind (costs_readInc W address _) fun value => costs_writeOperand W address value)
      (by simp only [handlerBytes]; omega) (by simp only [handlerBytes]; omega)
  case OP_DECM =>
    exact costs_cast (costs_bind costs_FetchWord fun address =>
      costs_bind (costs_readInc W address _) fun value => costs_writeOperand W address value)
      (by simp only [handlerBytes]; omega) (by simp only [handlerBytes]; omega)
  case OP_ADD => exact costs_execRR _
  case OP_SUB => exact costs_execRR _
  case OP_MUL => exact costs_execRR _
  case OP_DIV => exact costs_execRR _
  case OP_ADDC => exact costs_execRC _ _
  case OP_SUBC => exact costs_execRC _ _
  case OP_MULC => exact costs_execRC _ _
  case OP_DIVC => exact costs_execRC _ _
  case OP_ADDA => exact costs_execRA _ _
  case OP_SUBA => exact costs_execRA _ _
  case OP_MULA => exact costs_execRA _ _
  case OP_DIVA => exact costs_execRA _ _
  case OP_UXT =>
    exact costs_bind costs_FetchByte fun _ =>
      costs_bind (costs_regGet _) fun _ =>
        costs_bind (costs_regSet _ _) fun _ => costs_execLDR
  case OP_LDR => exact costs_execLDR
  case OP_LDC =>
    exact costs_cast (costs_bind costs_FetchByte fun _ =>
      costs_bind (costs_fetchOperand W) fun _ => costs_regSet _ _)
      (by simp only [handlerBytes]; omega) (by simp only [handlerBytes]; omega)
  case OP_LDM =>
    exact costs_cast (costs_bind costs_FetchByte fun _ =>
      costs_bind costs_FetchWord fun _ =>
        costs_bind (costs_readOperand W _) fun _ => costs_regSet _ _)
      (by simp only [handlerBytes]; omega) (by simp only [handlerBytes]; omega)
  case OP_JMP => exact costs_bind costs_FetchWord fun _ => costs_regSet _ _
  case OP_JRE => exact costs_execJRC _ _
  case OP_JRN => exact costs_execJRC _ _
  case OP_JRG => exact costs_execJRC _ _
  case OP_JRGE => exact costs_execJRC _ _
  case OP_JRL => exact costs_execJRC _ _
  case OP_JRLE => exact costs_execJRC _ _
  case OP_JREM => exact costs_execJRM _ _
  case OP_JRNM => exact costs_execJRM _ _
  case OP_JRGM => exact costs_execJRM _ _
  case OP_JRGEM => exact costs_execJRM _ _
  case OP_JRLM => exact costs_execJRM _ _
  case OP_JRLEM => exact costs_execJRM _ _
  case OP_JSR =>
    exact costs_bind costs_FetchWord fun _ =>
      costs_bind (costs_regGet _) fun _ =>
        costs_bind (costs_StackPushWord _) fun _ => costs_regSet _ _
  case OP_RTN => exact costs_bind costs_StackPopWord fun _ => costs_regSet _ _
  case OP_PUSH =>
    exact costs_bind costs_FetchByte fun _ =>
      costs_bind (costs_regGet _) fun _ => costs_StackPushWord _
  case OP_PUSHM =>
    exact costs_cast (costs_bind costs_FetchByte fun _ =>
      costs_bind costs_FetchWord fun _ =>
        costs_bind (costs_readOperand W _) fun _ =>
          costs_bind (costs_regGet _) fun _ => costs_StackPushWord _)
      (by simp only [handlerBytes]; omega) (by simp only [handlerBytes]; omega)
  case OP_PUSHC =>
    exact costs_cast (costs_bind costs_FetchByte fun _ =>
      costs_bind (costs_fetchOperand W) fun _ =>
        costs_bind (costs_regGet _) fun _ => costs_StackPushWord _)
      (by simp only [handlerBytes]; omega) (by simp only [handlerBytes]; omega)
  case OP_POP =>
    exact costs_cast (costs_bind costs_FetchByte fun _ =>
      costs_bind (costs_popOperand W) fun _ => costs_regSet _ _)
      (by simp only [handlerBytes]; omega) (by simp only [handlerBytes]; omega)
  case OP_POPM =>
    exact costs_cast (costs_bind costs_FetchWord fun _ =>
      costs_bind (costs_popOperand W) fun _ => costs_writeOperand W _ _)
      (by simp only [handlerBytes]; omega) (by simp only [handlerBytes]; omega)
  all_goals exact costs_error _ _ _

theorem FetchByte_eq (s : Machine) :
    FetchByte s =
      if s.aligned PC < MEM_SIZE then
        .ok (s.Data (s.aligned PC),
          { s with aligned := upd s.aligned PC ((s.aligned PC + 1) % 65536),
                   cycles := s.cycles - 1, accessed := s.accessed + 1 })
      else .error .memoryIndex := by
  simp only [FetchByte, memAtPCInc, Exec.bind_apply, charge, regGet, regSet, memGet, PC]
  simp

theorem Exec.run_ok_iff (m : Exec Unit) (s s1 : Machine) :
    Exec.run m s = .ok s1 ↔ m s = .ok ((), s1) := by
  unfold Exec.run
  cases m s with
  | error e => simp
  | ok p =>
    obtain ⟨u, s2⟩ := p
    simp

theorem Exec.run_error_iff (m : Exec Unit) (s : Machine) (e : Fault) :
    Exec.run m s = .error e ↔ m s = .error e := by
  unfold Exec.run
  cases m s with
  | error e => simp
  | ok p => simp

theorem step_eq (s : Machine) :
    step s = match FetchByte s with
      | .ok (b, s1) => Exec.run (execute (Opcode.ofVal (b &&& 0x7F)) ((b >>> 7) == 1)) s1
      | .error e => .error e := by
  unfold step Exec.run
  rw [Exec.bind_apply]
  cases FetchByte s with
  | error e => rfl
  | ok p => rfl

theorem step_ok {s s2 : Machine} (h : step s = .ok s2) :
    ∃ s1, FetchByte s = .ok (instByte s, s1) ∧
      execute (opcodeOf s) (byteFlagOf s) s1 = .ok ((), s2) := by
  rw [step_eq] at h
  have hf := FetchByte_eq s
  split at hf
  · rw [hf] at h
    exact ⟨_, hf, (Exec.run_ok_iff _ _ _).1 h⟩
  · rw [hf] at h; cases h

theorem costs_JRZ {W : Bool} {s1 s2 : Machine}
    (h : execute (some OP_JRZ) W s1 = .ok ((), s2)) :
    ∃ r s0, (FetchByte >>= regGet) s1 = .ok (r, s0) ∧
      s2.cycles = s1.cycles - ((if r = 0 then 3 else 1 : Nat) : Int) ∧
      s2.accessed = s1.accessed + (if r = 0 then 3 else 1) := by
  obtain ⟨reg, sa, hF, h2⟩ := Exec.bind_ok h
  obtain ⟨r, sb, hR, h3⟩ := Exec.bind_ok h2
  refine ⟨r, sb, ?_, ?_⟩
  · rw [Exec.bind_apply, hF]; exact hR
  · obtain ⟨c1, a1⟩ := costs_FetchByte _ _ _ hF
    obtain ⟨c2, a2⟩ := costs_regGet _ _ _ _ hR
    by_cases hr : r = 0
    · simp only [hr, if_true] at h3 ⊢
      obtain ⟨c3, a3⟩ :=
        (costs_bind costs_FetchWord fun t => costs_regSet PC t) _ _ _ h3
      rw [c3, a3, c2, a2, c1, a1]
      constructor
      · push_cast; ring
      · ring
    · simp only [hr, if_false] at h3 ⊢
      obtain ⟨c3, a3⟩ :=
        (costs_bind (costs_regGet PC) fun pc => costs_regSet PC (pc + 2)) _ _ _ h3
      rw [c3, a3, c2, a2, c1, a1]
      constructor
      · push_cast; ring
      · ring

theorem jrzTaken_eq {s s1 s0 : Machine} {r : Nat}
    (hF : FetchByte s = .ok (instByte s, s1))
    (hR : (FetchByte >>= regGet) s1 = .ok (r, s0)) :
    jrzTaken s = (r == 0) := by
  unfold jrzTaken
  rw [Exec.bind_apply, hF]
  simp only
  rw [hR]

theorem step_balance {s s2 : Machine} (h : step s = .ok s2) :
    ∃ k : Nat, 1 ≤ k ∧ s2.cycles = s.cycles - (k : Int) ∧ s2.accessed = s.accessed + k ∧
      ∀ op n, opcodeOf s = some op →
        claimedCycles op (byteFlagOf s) (jrzTaken s) = some n → k = n := by
  obtain ⟨s1, hF, hE⟩ := step_ok h
  obtain ⟨c1, a1⟩ := costs_FetchByte _ _ _ hF
  cases hop : opcodeOf s with
  | none => rw [hop] at hE; cases hE
  | some op =>
    rw [hop] at hE
    by_cases hz : op = OP_JRZ
    · subst hz
      obtain ⟨r, s0, hR, c2, a2⟩ := costs_JRZ hE
      have ht := jrzTaken_eq hF hR
      refine ⟨1 + (if r = 0 then 3 else 1), by omega, ?_, ?_, ?_⟩
      · rw [c2, c1]; push_cast; ring
      · rw [a2, a1]; ring
      · intro op n ho hn
        cases ho
        rw [ht] at hn
        by_cases hr : r = 0
        · simp [claimedCycles, hr] at hn ⊢; omega
        · simp [claimedCycles, hr] at hn ⊢; omega
    · obtain ⟨c2, a2⟩ := costs_execute op (byteFlagOf s) hz _ _ _ hE
      refine ⟨1 + handlerBytes op (byteFlagOf s), by omega, ?_, ?_, ?_⟩
      · rw [c2, c1]; push_cast; ring
      · rw [a2, a1]; ring
      · intro op1 n ho hn
        cases ho
        generalize byteFlagOf s = W at hn ⊢
        generalize jrzTaken s = t at hn
        cases op <;> cases W <;>
          simp [claimedCycles, handlerBytes, width] at hn hz ⊢ <;> omega

/-- C1. One fetch-decode-execute step that completes without a fault lowers
the cycle counter by exactly the number of bytes it transferred (the ghost
count of `Memory::operator[]` evaluations: instruction-stream fetches, memory
reads and writes, stack pushes and pops), which is at least the opcode byte;
and for every opcode of the specification's cycle table that number is the
table's entry for the decoded width flag (for `JRZ`, for the outcome of its
test).  The statement holds in every state, in particular in every non-halted
one. -/
theorem step_charges_bytes_accessed (s s2 : Machine) (h : step s = .ok s2) :
    s.cycles - s2.cycles = ((s2.accessed - s.accessed : Nat) : Int) ∧
    s.accessed < s2.accessed ∧
    ∀ op n, opcodeOf s = some op →
      claimedCycles op (byteFlagOf s) (jrzTaken s) = some n →
      s.cycles - s2.cycles = (n : Int) := by
  obtain ⟨k, hk, hc, ha, ht⟩ := step_balance h
  refine ⟨?_, by omega, ?_⟩
  · rw [hc, ha]; simp
  · intro op n ho hn
    rw [hc, ← ht op n ho hn]; ring

/-! ## Symbolic execution support -/

@[simp] theorem returns_ok (s : Machine) (P : Machine → Prop) :
    Returns (.ok s) P ↔ P s := Iff.rfl

@[simp] theorem returns_error (e : Fault) (P : Machine → Prop) :
    Returns (.error e) P ↔ False := Iff.rfl

theorem returns_iff (r : Except Fault Machine) (P : Machine → Prop) :
    Returns r P ↔ ∃ s, r = .ok s ∧ P s := by
  cases r with
  | error e => simp
  | ok s => simp

@[simp] theorem upd_same (f : Nat → Nat) (i v : Nat) : upd f i v i = v := by
  simp [upd]

theorem upd_ne (f : Nat → Nat) {i j : Nat} (v : Nat) (h : j ≠ i) : upd f i v j = f j := by
  simp [upd, h]

@[simp] theorem upd_upd (f : Nat → Nat) (i v w : Nat) : upd (upd f i v) i w = upd f i w := by
  funext j
  unfold upd
  split_ifs <;> rfl

theorem FetchWord_eq (s : Machine) :
    FetchWord s =
      if s.aligned PC < MEM_SIZE ∧ (s.aligned PC + 1) % 65536 < MEM_SIZE then
        .ok ((s.Data (s.aligned PC) ||| (s.Data ((s.aligned PC + 1) % 65536) <<< 8)) % 65536,
          { s with aligned := upd s.aligned PC (((s.aligned PC + 1) % 65536 + 1) % 65536),
                   cycles := s.cycles - 2, accessed := s.accessed + 2 })
      else .error .memoryIndex := by
  simp only [FetchWord, memAtPCInc, Exec.bind_apply, Exec.pure_apply, charge, regGet, regSet,
    memGet, PC]
  by_cases h1 : s.aligned 6 < MEM_SIZE
  · by_cases h2 : (s.aligned 6 + 1) % 65536 < MEM_SIZE
    · simp [h1, h2]
    · simp [h1, h2]
  · simp [h1]

theorem step_eq_decoded (s : Machine) :
    step s = match FetchByte s with
      | .ok (_, s1) => Exec.run (execute (opcodeOf s) (byteFlagOf s)) s1
      | .error e => .error e := by
  rw [step_eq, FetchByte_eq]
  split_ifs <;> rfl

/-- A little-endian byte pair reassembles to the word it was cut from. -/
theorem word_of_bytes (n : Nat) (h : n < 65536) :
    (n % 256 ||| (n / 256) <<< 8) % 65536 = n := by
  have h1 : n % 256 < 2 ^ 8 := by omega
  have h2 := Nat.mul_add_lt_is_or h1 (n / 256)
  rw [Nat.shiftLeft_eq, Nat.lor_comm, Nat.mul_comm, ← h2]
  omega

theorem ExecuteLoop_succ (fuel : Nat) (s : Machine) :
    ExecuteLoop (fuel + 1) s =
      if 0 < s.cycles ∧ s.halted = false then
        match step s with
        | .ok s1 => ExecuteLoop fuel s1
        | .error e => .error e
      else .ok s := rfl

theorem ExecuteLoop_step {fuel : Nat} {s s1 : Machine} (hc : 0 < s.cycles)
    (hh : s.halted = false) (hs : step s = .ok s1) :
    ExecuteLoop (fuel + 1) s = ExecuteLoop fuel s1 := by
  rw [ExecuteLoop_succ, if_pos ⟨hc, hh⟩, hs]

theorem ExecuteLoop_halted (fuel : Nat) {s : Machine} (hh : s.halted = true) :
    ExecuteLoop fuel s = .ok s := by
  cases fuel with
  | zero => rfl
  | succ f => rw [ExecuteLoop_succ, if_neg]; simp [hh]

/-! ## The increment loop of `main` -/

theorem loop_step_INC {n k : Nat} {c : Int} {s : Machine} (h : LoopAt n k 0 c s)
    (hk : k + 1 < 65536) : Returns (step s) (LoopAt n (k + 1) 2 (c - 2)) := by
  obtain ⟨h0, h1, h2, h3, h4, h5, h6, h7, h8, hr, hpc, hh, hc⟩ := h
  have hop : opcodeOf s = some OP_INC := by
    simp only [opcodeOf, instByte, hpc, h0]; decide
  rw [PC] at hpc
  simp [step_eq_decoded, Exec.run, hop, FetchByte_eq, PC, MEM_SIZE, hpc, execute, Exec.bind_apply, upd,
    regGet, regSet, LoopAt, h0, h1, h2, h3, h4, h5, h6, h7, h8, hr, hh, hc]
  omega

theorem loop_step_JRN {n k : Nat} {c : Int} {s : Machine} (h : LoopAt n k 2 c s)
    (hn : n < 65536) :
    Returns (step s) (LoopAt n k (if k = n then 8 else 0) (c - 6)) := by
  obtain ⟨h0, h1, h2, h3, h4, h5, h6, h7, h8, hr, hpc, hh, hc⟩ := h
  have hop : opcodeOf s = some OP_JRN := by
    simp only [opcodeOf, instByte, hpc, h2]; decide
  have hW : byteFlagOf s = false := by
    simp only [byteFlagOf, instByte, hpc, h2]; decide
  rw [PC] at hpc
  by_cases hkn : k = n
  · simp [step_eq_decoded, Exec.run, hop, hW, FetchByte_eq, FetchWord_eq, PC, MEM_SIZE, hpc, execute,
      execJRC, fetchOperand, Exec.bind_apply, Exec.pure_apply, upd, regGet, regSet, LoopAt,
      Cmp.eval, h0, h1, h2, h3, h4, h5, h6, h7, h8, hr, hh, hc, word_of_bytes n hn, hkn]
    omega
  · simp [step_eq_decoded, Exec.run, hop, hW, FetchByte_eq, FetchWord_eq, PC, MEM_SIZE, hpc, execute,
      execJRC, fetchOperand, Exec.bind_apply, Exec.pure_apply, upd, regGet, regSet, LoopAt,
      Cmp.eval, h0, h1, h2, h3, h4, h5, h6, h7, h8, hr, hh, hc, word_of_bytes n hn, hkn]
    omega

theorem loop_step_HALT {n k : Nat} {c : Int} {s : Machine} (h : LoopAt n k 8 c s) :
    Returns (step s) (fun s1 => s1.aligned 0 = k ∧ s1.aligned PC = 9 ∧ s1.halted = true ∧
      s1.cycles = c - 1) := by
  obtain ⟨h0, h1, h2, h3, h4, h5, h6, h7, h8, hr, hpc, hh, hc⟩ := h
  have hop : opcodeOf s = some OP_HALT := by
    simp only [opcodeOf, instByte, hpc, h8]; decide
  rw [PC] at hpc
  simp [step_eq_decoded, Exec.run, hop, FetchByte_eq, PC, MEM_SIZE, hpc, execute, upd, hr, hc]

theorem loop_runs (n : Nat) (hn : n < 65536) :
    ∀ (d k fuel : Nat) (s : Machine), k + d + 1 = n → 2 * d + 3 ≤ fuel →
      LoopAt n k 0 (8 * (d + 1) + 1) s → Returns (ExecuteLoop fuel s) (LoopDone n) := by
  intro d
  induction d with
  | zero =>
    intro k fuel s hk hf h
    obtain ⟨f, rfl⟩ : ∃ f, fuel = f + 3 := ⟨fuel - 3, by omega⟩
    have hI := loop_step_INC h (by omega)
    obtain ⟨s1, hs1, h1⟩ := (returns_iff _ _).1 hI
    have hJ := loop_step_JRN h1 hn
    obtain ⟨s2, hs2, h2⟩ := (returns_iff _ _).1 hJ
    rw [if_pos (by omega)] at h2
    have hH := loop_step_HALT h2
    obtain ⟨s3, hs3, h3⟩ := (returns_iff _ _).1 hH
    have c0 : s.cycles = 8 * ((0 : Nat) + 1 : Int) + 1 := h.2.2.2.2.2.2.2.2.2.2.2.2
    have c1 : s1.cycles = 8 * ((0 : Nat) + 1 : Int) + 1 - 2 := h1.2.2.2.2.2.2.2.2.2.2.2.2
    have c2 : s2.cycles = 8 * ((0 : Nat) + 1 : Int) + 1 - 2 - 6 := h2.2.2.2.2.2.2.2.2.2.2.2.2
    rw [ExecuteLoop_step (by omega) h.2.2.2.2.2.2.2.2.2.2.2.1 hs1,
      ExecuteLoop_step (by omega) h1.2.2.2.2.2.2.2.2.2.2.2.1 hs2,
      ExecuteLoop_step (by omega) h2.2.2.2.2.2.2.2.2.2.2.2.1 hs3,
      ExecuteLoop_halted _ h3.2.2.1]
    refine (returns_ok _ _).2 ⟨?_, h3.2.2.1, h3.2.1, ?_⟩
    · rw [h3.1]; omega
    · rw [h3.2.2.2]; norm_num
  | succ d ih =>
    intro k fuel s hk hf h
    obtain ⟨f, rfl⟩ : ∃ f, fuel = f + 2 := ⟨fuel - 2, by omega⟩
    have hI := loop_step_INC h (by omega)
    obtain ⟨s1, hs1, h1⟩ := (returns_iff _ _).1 hI
    have hJ := loop_step_JRN h1 hn
    obtain ⟨s2, hs2, h2⟩ := (returns_iff _ _).1 hJ
    rw [if_neg (by omega)] at h2
    have c0 : s.cycles = 8 * ((d + 1 : Nat) + 1 : Int) + 1 := h.2.2.2.2.2.2.2.2.2.2.2.2
    have c1 : s1.cycles = 8 * ((d + 1 : Nat) + 1 : Int) + 1 - 2 := h1.2.2.2.2.2.2.2.2.2.2.2.2
    rw [ExecuteLoop_step (by omega) h.2.2.2.2.2.2.2.2.2.2.2.1 hs1,
      ExecuteLoop_step (by omega) h1.2.2.2.2.2.2.2.2.2.2.2.1 hs2]
    refine ih (k + 1) f s2 (by omega) (by omega) ?_
    have e : (8 * ((d + 1 : Nat) + 1 : Int) + 1 - 2 - 6) = 8 * ((d : Int) + 1) + 1 := by
      push_cast; ring
    rw [e] at h2
    exact h2

theorem incLoopStart_at (n : Nat) (hn : n < 65536) (c : Int) :
    LoopAt n 0 0 c { incLoopStart n with cycles := c } := by
  simp [LoopAt, incLoopStart, incLoopImage, loadImage, resetMachine, Reset, Memory.Clear, upd,
    Opcode.val, PC, SP]
  omega

/-- C2. For every `n` with `1 ≤ n ≤ 0xFFFF`, the reset machine holding
`[OP_INC, 0x00, OP_JRN, 0x00, lo(n), hi(n), 0x00, 0x00, OP_HALT]` at address 0
and run by `Execute` with budget `8 * n + 1` returns with `R0 = n`,
`halted = true`, `PC = 9` and a cycle counter of exactly 0. -/
theorem incLoop_Execute (n : Nat) (h1 : 1 ≤ n) (h2 : n ≤ 0xFFFF) :
    ∃ s, Execute (8 * (n : Int) + 1) (incLoopStart n) = .ok s ∧
      s.aligned 0 = n ∧ s.halted = true ∧ s.aligned PC = 9 ∧ s.cycles = 0 := by
  obtain ⟨d, rfl⟩ : ∃ d, n = d + 1 := ⟨n - 1, by omega⟩
  have hr := loop_runs (d + 1) (by omega) d 0 (8 * (d + 1) + 1) _ (by omega) (by omega)
    (incLoopStart_at (d + 1) (by omega) (8 * ((d : Int) + 1) + 1))
  have hf : (8 * ((d + 1 : Nat) : Int) + 1).toNat = 8 * (d + 1) + 1 := by omega
  unfold Execute
  rw [hf]
  push_cast
  exact (returns_iff _ _).1 hr

/-- C2 at the test of `main`: `n = 0x10`, budget 129. -/
theorem incLoop_Execute_main :
    (1 ≤ 0x10 ∧ 0x10 ≤ 0xFFFF) ∧
    ∃ s, Execute (8 * ((0x10 : Nat) : Int) + 1) (incLoopStart 0x10) = .ok s ∧
      s.aligned 0 = 0x10 ∧ s.halted = true ∧ s.aligned PC = 9 ∧ s.cycles = 0 :=
  ⟨by decide, incLoop_Execute 0x10 (by decide) (by decide)⟩

/-- C1 at `INC R0` on the reset machine: the step returns and costs the two
cycles of the table. -/
theorem step_charges_bytes_accessed_INC :
    step (incLoopStart 0x10) = .ok (stepState (incLoopStart 0x10)) ∧
    (incLoopStart 0x10).cycles - (stepState (incLoopStart 0x10)).cycles = ((2 : Nat) : Int) :=
  ⟨rfl, (step_charges_bytes_accessed (incLoopStart 0x10) (stepState (incLoopStart 0x10)) rfl).2.2
    OP_INC 2 (by decide) (by decide)⟩

/-! ## The specification's increment-loop image -/

theorem observe_some {r : Except Fault Machine} {a pc : Nat} {h : Bool} {c : Int}
    (ho : observe r = some (a, pc, h, c)) :
    ∃ s, r = .ok s ∧ s.aligned 0 = a ∧ s.aligned PC = pc ∧ s.halted = h ∧ s.cycles = c := by
  cases r with
  | error e => cases ho
  | ok s =>
    simp only [observe, Option.some.injEq, Prod.mk.injEq] at ho
    exact ⟨s, rfl, ho⟩

set_option maxRecDepth 1000000 in
theorem specLoopImage_observed :
    observe (Execute 129 (loadImage resetMachine 0 specLoopImage)) = some (1, 9, true, 120) := by
  decide

set_option maxRecDepth 1000000 in
theorem jrnLoopImage_observed :
    observe (Execute 129 (loadImage resetMachine 0 jrnLoopImage)) = some (16, 9, true, 0) := by
  decide

/-- C3, as stated, fails: `0x47` is `OP_JRGE`, so after the single `INC` the
test `R0 >= 0x0010` is false, the loop is never entered again and `Execute`
returns with `R0 = 1` and 120 cycles left; it does not return with
`R0 = 0x0010` and no cycle left. -/
theorem specLoopImage_run :
    Opcode.ofVal 0x47 = some OP_JRGE ∧
    (∃ s, Execute 129 (loadImage resetMachine 0 specLoopImage) = .ok s ∧
      s.aligned 0 = 1 ∧ s.halted = true ∧ s.cycles = 120) ∧
    ¬ ∃ s, Execute 129 (loadImage resetMachine 0 specLoopImage) = .ok s ∧
      s.aligned 0 = 0x0010 ∧ s.halted = true ∧ s.cycles = 0 := by
  obtain ⟨s1, hs1, h1, -, hh, hc⟩ := observe_some specLoopImage_observed
  refine ⟨by decide, ⟨s1, hs1, h1, hh, hc⟩, ?_⟩
  rintro ⟨s, hs, h0, -, -⟩
  rw [hs] at hs1
  cases hs1
  omega

/-- C3, amended: with `0x45` (`OP_JRN`) as the third byte, `Execute` with
budget 129 on the reset machine ends with `R0 = 0x0010`, `halted = true` and a
cycle counter of exactly 0. -/
theorem jrnLoopImage_run :
    Opcode.ofVal 0x45 = some OP_JRN ∧
    ∃ s, Execute 129 (loadImage resetMachine 0 jrnLoopImage) = .ok s ∧
      s.aligned 0 = 0x0010 ∧ s.halted = true ∧ s.cycles = 0 := by
  obtain ⟨s1, hs1, h1, -, hh, hc⟩ := observe_some jrnLoopImage_observed
  exact ⟨by decide, s1, hs1, h1, hh, hc⟩

/-! ## Reset -/

theorem ofVal_RESET : Opcode.ofVal 0x7E = some OP_RESET := by decide

theorem step_RESET {s : Machine} (hpc : s.aligned PC < MEM_SIZE)
    (hop : s.Data (s.aligned PC) &&& 0x7F = 0x7E) :
    step s = .ok (Reset { s with aligned := upd s.aligned PC ((s.aligned PC + 1) % 65536),
                                 cycles := s.cycles - 1, accessed := s.accessed + 1 }) := by
  have ho : opcodeOf s = some OP_RESET := by
    simp only [opcodeOf, instByte, hop]; exact ofVal_RESET
  simp [step_eq_decoded, Exec.run, ho, FetchByte_eq, hpc, execute]

/-- C4. In every machine state, `Reset` leaves `PC = 0`, `SP = 0xFFFF` and
every cell of the memory array reading 0; and so does a step that fetches the
`RESET` opcode `0x7E` from a memory cell. -/
theorem Reset_PC_SP_memory (s : Machine) :
    ((Reset s).aligned PC = 0 ∧ (Reset s).aligned SP = 0xFFFF ∧
      ∀ a, a < MEM_SIZE → (Reset s).Data a = 0 ∧
        ∃ s1, memGet a (Reset s) = .ok (0, s1)) ∧
    (s.aligned PC < MEM_SIZE → s.Data (s.aligned PC) &&& 0x7F = 0x7E →
      ∃ s1, step s = .ok s1 ∧ s1.aligned PC = 0 ∧ s1.aligned SP = 0xFFFF ∧
        ∀ a, a < MEM_SIZE → s1.Data a = 0 ∧ ∃ s2, memGet a s1 = .ok (0, s2)) := by
  have key : ∀ t : Machine, (Reset t).aligned PC = 0 ∧ (Reset t).aligned SP = 0xFFFF ∧
      ∀ a, a < MEM_SIZE → (Reset t).Data a = 0 ∧
        ∃ s1, memGet a (Reset t) = .ok (0, s1) := by
    intro t
    refine ⟨by simp [Reset, Memory.Clear, upd, PC, SP],
      by simp [Reset, Memory.Clear, upd, PC, SP], ?_⟩
    intro a ha
    have hd : (Reset t).Data a = 0 := by simp [Reset, Memory.Clear, ha]
    exact ⟨hd, by simp [memGet, ha, hd]⟩
  refine ⟨key s, ?_⟩
  intro hpc hop
  exact ⟨_, step_RESET hpc hop, key _⟩

/-- C4 at a machine full of garbage whose PC points at a `RESET` opcode. -/
theorem Reset_PC_SP_memory_dirty :
    (dirtyMachine.aligned PC < MEM_SIZE ∧
      dirtyMachine.Data (dirtyMachine.aligned PC) &&& 0x7F = 0x7E) ∧
    ∃ s1, step dirtyMachine = .ok s1 ∧ s1.aligned PC = 0 ∧ s1.aligned SP = 0xFFFF ∧
      ∀ a, a < MEM_SIZE → s1.Data a = 0 ∧ ∃ s2, memGet a s1 = .ok (0, s2) :=
  ⟨⟨by decide, by decide⟩, (Reset_PC_SP_memory dirtyMachine).2 (by decide) (by decide)⟩

/-- C5, as stated, fails: `Reset` does not write the status byte, so a status
byte of `0x81` is still `0x81` after `Reset`, even with R0..R5 all 0. -/
theorem Reset_keeps_status_flagged :
    ¬ ((∀ i, i < 6 → (Reset flaggedMachine).aligned i = 0) ∧
        (Reset flaggedMachine).status = 0) := by
  rintro ⟨-, h⟩
  revert h
  decide

/-- C5, amended: in every machine state, after `Reset` the registers R0, R1
and R2 are 0 whatever they held before, and the status byte is the one the
state had before (`Reset` does not write it). -/
theorem Reset_registers_status (s : Machine) :
    (Reset s).aligned 0 = 0 ∧ (Reset s).aligned 1 = 0 ∧ (Reset s).aligned 2 = 0 ∧
    (Reset s).status = s.status := by
  simp [Reset, Memory.Clear]

/-- The bytes `memset(registers.aligned, 0, 6)` leaves alone: R3, R4 and R5
keep their values across `Reset`. -/
theorem Reset_keeps_R3_R4_R5 (s : Machine) :
    (Reset s).aligned 3 = s.aligned 3 ∧ (Reset s).aligned 4 = s.aligned 4 ∧
    (Reset s).aligned 5 = s.aligned 5 := by
  simp [Reset, Memory.Clear, upd, PC, SP]

/-- C6, as stated, fails: a machine that is halted is still halted after
`Reset`, and a following `Execute` with budget 10 returns at once: the state
is the reset state with its 10 cycles unspent, nothing fetched. -/
theorem Reset_keeps_halted_true :
    ¬ ((Reset haltedMachine).halted = false) ∧
    Execute 10 (Reset haltedMachine) = .ok { Reset haltedMachine with cycles := 10 } :=
  ⟨by decide, ExecuteLoop_halted _ rfl⟩

/-- C6, amended: `Reset` leaves the halted flag as it was, in every CPU
state; so a halted CPU stays halted across `Reset`, and a following `Execute`,
whatever its budget, returns at once without a fetch. -/
theorem Reset_halted_unchanged (s : Machine) :
    (Reset s).halted = s.halted ∧
    (s.halted = true → ∀ budget : Int,
      Execute budget (Reset s) = .ok { Reset s with cycles := budget }) := by
  refine ⟨rfl, ?_⟩
  intro hh budget
  exact ExecuteLoop_halted _ hh

/-- C6, amended, at a halted machine: the flag is still set after `Reset`
and `Execute` with budget 7 returns the reset state untouched. -/
theorem Reset_halted_unchanged_halted :
    haltedMachine.halted = true ∧
    Execute 7 (Reset haltedMachine) = .ok { Reset haltedMachine with cycles := 7 } :=
  ⟨rfl, (Reset_halted_unchanged haltedMachine).2 rfl 7⟩

/-! ## Illegal instructions -/

theorem ni_pure {α : Type} (x : α) : NeverIllegal (pure x : Exec α) := by
  intro s h
  cases h

theorem ni_bind {α β : Type} {m : Exec α} {f : α → Exec β}
    (h1 : NeverIllegal m) (h2 : ∀ x, NeverIllegal (f x)) : NeverIllegal (m >>= f) := by
  intro s h
  rw [Exec.bind_apply] at h
  cases hm : m s with
  | error e =>
    rw [hm] at h
    cases h
    exact h1 s hm
  | ok p =>
    obtain ⟨a, s1⟩ := p
    rw [hm] at h
    exact h2 a s1 h

theorem ni_memGet (address : Nat) : NeverIllegal (memGet address) := by
  intro s h
  unfold memGet at h
  split at h <;> cases h

theorem ni_memSet (address value : Nat) : NeverIllegal (memSet address value) := by
  intro s h
  unfold memSet at h
  split at h <;> cases h

theorem ni_regGet (reg : Nat) : NeverIllegal (regGet reg) := by
  intro s h
  unfold regGet at h
  split at h <;> cases h

theorem ni_regSet (reg value : Nat) : NeverIllegal (regSet reg value) := by
  intro s h
  unfold regSet at h
  split at h <;> cases h

theorem ni_charge (k : Int) : NeverIllegal (charge k) := by
  intro s h
  cases h

theorem ni_memAtPCInc : NeverIllegal memAtPCInc :=
  ni_bind (ni_regGet _) fun _ => ni_bind (ni_regSet _ _) fun _ => ni_memGet _

theorem ni_FetchByte : NeverIllegal FetchByte :=
  ni_bind (ni_charge _) fun _ => ni_memAtPCInc

theorem ni_ReadByte (address : Nat) : NeverIllegal (ReadByte address) :=
  ni_bind (ni_charge _) fun _ => ni_memGet _

theorem ni_WriteByte (address value : Nat) : NeverIllegal (WriteByte address value) :=
  ni_bind (ni_memSet _ _) fun _ => ni_charge _

theorem ni_FetchWord : NeverIllegal FetchWord :=
  ni_bind ni_memAtPCInc fun _ =>
    ni_bind ni_memAtPCInc fun _ => ni_bind (ni_charge _) fun _ => ni_pure _

theorem ni_ReadWord (address : Nat) : NeverIllegal (ReadWord address) :=
  ni_bind (ni_memGet _) fun _ =>
    ni_bind (ni_memGet _) fun _ => ni_bind (ni_charge _) fun _ => ni_pure _

theorem ni_WriteWord (address value : Nat) : NeverIllegal (WriteWord address value) :=
  ni_bind (ni_memSet _ _) fun _ => ni_bind (ni_memSet _ _) fun _ => ni_charge _

theorem ni_StackPushByte (value : Nat) : NeverIllegal (StackPushByte value) :=
  ni_bind (ni_regGet _) fun _ =>
    ni_bind (ni_regSet _ _) fun _ => ni_bind (ni_regGet _) fun _ => ni_WriteByte _ _

theorem ni_StackPopByte : NeverIllegal StackPopByte :=
  ni_bind (ni_regGet _) fun _ =>
    ni_bind (ni_ReadByte _) fun _ => ni_bind (ni_regSet _ _) fun _ => ni_pure _

theorem ni_StackPushWord (value : Nat) : NeverIllegal (StackPushWord value) :=
  ni_bind (ni_regGet _) fun _ =>
    ni_bind (ni_regSet _ _) fun _ => ni_bind (ni_regGet _) fun _ => ni_WriteWord _ _

theorem ni_StackPopWord : NeverIllegal StackPopWord :=
  ni_bind (ni_regGet _) fun _ =>
    ni_bind (ni_ReadWord _) fun _ => ni_bind (ni_regSet _ _) fun _ => ni_pure _

theorem ni_fetchOperand (W : Bool) : NeverIllegal (fetchOperand W) := by
  cases W
  · exact ni_FetchWord
  · exact ni_FetchByte

theorem ni_readOperand (W : Bool) (address : Nat) : NeverIllegal (readOperand W address) := by
  cases W
  · exact ni_ReadWord _
  · exact ni_ReadByte _

theorem ni_popOperand (W : Bool) : NeverIllegal (popOperand W) := by
  cases W
  · exact ni_StackPopWord
  · exact ni_StackPopByte

theorem ni_writeOperand (W : Bool) (address value : Nat) :
    NeverIllegal (writeOperand W address value) := by
  cases W
  · exact ni_WriteWord _ _
  · exact ni_WriteByte _ _

theorem ni_arithInto (op : Arith) (reg value : Nat) : NeverIllegal (arithInto op reg value) := by
  refine ni_bind (ni_regGet reg) fun r => ?_
  cases h : op.eval r value with
  | ok v => simp only [h]; exact ni_regSet _ _
  | error e =>
    simp only [h]
    intro s hs
    cases hs
    cases op <;> simp [Arith.eval] at h
    split_ifs at h
    cases h

theorem ni_execRR (op : Arith) : NeverIllegal (execRR op) :=
  ni_bind ni_FetchByte fun _ =>
    ni_bind ni_FetchByte fun _ => ni_bind (ni_regGet _) fun _ => ni_arithInto _ _ _

theorem ni_execRC (op : Arith) (W : Bool) : NeverIllegal (execRC op W) :=
  ni_bind ni_FetchByte fun _ => ni_bind (ni_fetchOperand W) fun _ => ni_arithInto _ _ _

theorem ni_execRA (op : Arith) (W : Bool) : NeverIllegal (execRA op W) :=
  ni_bind ni_FetchByte fun _ =>
    ni_bind ni_FetchWord fun _ => ni_bind (ni_readOperand W _) fun _ => ni_arithInto _ _ _

theorem ni_condJump (b : Bool) (t : Nat) :
    NeverIllegal (if b then regSet PC t else pure ()) := by
  cases b
  · exact ni_pure _
  · exact ni_regSet _ _

theorem ni_execJRC (c : Cmp) (W : Bool) : NeverIllegal (execJRC c W) :=
  ni_bind ni_FetchByte fun _ =>
    ni_bind (ni_fetchOperand W) fun _ =>
      ni_bind ni_FetchWord fun _ => ni_bind (ni_regGet _) fun _ => ni_condJump _ _

theorem ni_execJRM (c : Cmp) (W : Bool) : NeverIllegal (execJRM c W) :=
  ni_bind ni_FetchByte fun _ =>
    ni_bind ni_FetchWord fun _ =>
      ni_bind (ni_readOperand W _) fun _ =>
        ni_bind ni_FetchWord fun _ => ni_bind (ni_regGet _) fun _ => ni_condJump _ _

theorem ni_execLDR : NeverIllegal execLDR :=
  ni_bind ni_FetchByte fun _ =>
    ni_bind ni_FetchByte fun _ => ni_bind (ni_regGet _) fun _ => ni_regSet _ _

theorem ni_readInc (W : Bool) (address : Nat) (g : Nat → Nat) :
    NeverIllegal (if W then ReadByte address
                  else (do let w ← ReadWord address; pure (g w) : Exec Nat)) := by
  cases W
  · exact ni_bind (ni_ReadWord _) fun _ => ni_pure _
  · exact ni_ReadByte _

theorem ni_execute (op : Opcode) (W : Bool) (hop : op.handled = true) :
    NeverIllegal (execute (some op) W) := by
  cases op
  case OP_NOP => exact ni_pure _
  case OP_RESET => intro s h; cases h
  case OP_HALT => intro s h; cases h
  case OP_INC =>
    exact ni_bind ni_FetchByte fun _ => ni_bind (ni_regGet _) fun _ => ni_regSet _ _
  case OP_DEC =>
    exact ni_bind ni_FetchByte fun _ => ni_bind (ni_regGet _) fun _ => ni_regSet _ _
  case OP_INCM =>
    exact ni_bind ni_FetchWord fun address =>
      ni_bind (ni_readInc W address _) fun value => ni_writeOperand W address value
  case OP_DECM =>
    exact ni_bind ni_FetchWord fun address =>
      ni_bind (ni_readInc W address _) fun value => ni_writeOperand W address value
  case OP_ADD => exact ni_execRR _
  case OP_SUB => exact ni_execRR _
  case OP_MUL => exact ni_execRR _
  case OP_DIV => exact ni_execRR _
  case OP_ADDC => exact ni_execRC _ _
  case OP_SUBC => exact ni_execRC _ _
  case OP_MULC => exact ni_execRC _ _
  case OP_DIVC => exact ni_execRC _ _
  case OP_ADDA => exact ni_execRA _ _
  case OP_SUBA => exact ni_execRA _ _
  case OP_MULA => exact ni_execRA _ _
  case OP_DIVA => exact ni_execRA _ _
  case OP_UXT =>
    exact ni_bind ni_FetchByte fun _ =>
      ni_bind (ni_regGet _) fun _ => ni_bind (ni_regSet _ _) fun _ => ni_execLDR
  case OP_LDR => exact ni_execLDR
  case OP_LDC =>
    exact ni_bind ni_FetchByte fun _ => ni_bind (ni_fetchOperand W) fun _ => ni_regSet _ _
  case OP_LDM =>
    exact ni_bind ni_FetchByte fun _ =>
      ni_bind ni_FetchWord fun _ => ni_bind (ni_readOperand W _) fun _ => ni_regSet _ _
  case OP_JMP => exact ni_bind ni_FetchWord fun _ => ni_regSet _ _
  case OP_JRZ =>
    refine ni_bind ni_FetchByte fun _ => ni_bind (ni_regGet _) fun r => ?_
    by_cases hr : r = 0
    · simp only [hr, if_true]
      exact ni_bind ni_FetchWord fun _ => ni_regSet _ _
    · simp only [hr, if_false]
      exact ni_bind (ni_regGet _) fun _ => ni_regSet _ _
  case OP_JRE => exact ni_execJRC _ _
  case OP_JRN => exact ni_execJRC _ _
  case OP_JRG => exact ni_execJRC _ _
  case OP_JRGE => exact ni_execJRC _ _
  case OP_JRL => exact ni_execJRC _ _
  case OP_JRLE => exact ni_execJRC _ _
  case OP_JREM => exact ni_execJRM _ _
  case OP_JRNM => exact ni_execJRM _ _
  case OP_JRGM => exact ni_execJRM _ _
  case OP_JRGEM => exact ni_execJRM _ _
  case OP_JRLM => exact ni_execJRM _ _
  case OP_JRLEM => exact ni_execJRM _ _
  case OP_JSR =>
    exact ni_bind ni_FetchWord fun _ =>
      ni_bind (ni_regGet _) fun _ => ni_bind (ni_StackPushWord _) fun _ => ni_regSet _ _
  case OP_RTN => exact ni_bind ni_StackPopWord fun _ => ni_regSet _ _
  case OP_PUSH =>
    exact ni_bind ni_FetchByte fun _ => ni_bind (ni_regGet _) fun _ => ni_StackPushWord _
  case OP_PUSHM =>
    exact ni_bind ni_FetchByte fun _ =>
      ni_bind ni_FetchWord fun _ =>
        ni_bind (ni_readOperand W _) fun _ =>
          ni_bind (ni_regGet _) fun _ => ni_StackPushWord _
  case OP_PUSHC =>
    exact ni_bind ni_FetchByte fun _ =>
      ni_bind (ni_fetchOperand W) fun _ => ni_bind (ni_regGet _) fun _ => ni_StackPushWord _
  case OP_POP =>
    exact ni_bind ni_FetchByte fun _ => ni_bind (ni_popOperand W) fun _ => ni_regSet _ _
  case OP_POPM =>
    exact ni_bind ni_FetchWord fun _ =>
      ni_bind (ni_popOperand W) fun _ => ni_writeOperand W _ _
  all_goals exact absurd hop (by decide)

theorem execute_unhandled (op : Opcode) (W : Bool) (s : Machine) (hop : op.handled = false) :
    execute (some op) W s = .error .illegalInstruction := by
  cases op <;> first | rfl | exact absurd hop (by decide)

theorem step_illegal_iff (s : Machine) (hpc : s.aligned PC < MEM_SIZE) :
    step s = .error .illegalInstruction ↔ dispatched s = false := by
  rw [step_eq_decoded, FetchByte_eq, if_pos hpc]
  simp only [dispatched, Exec.run_error_iff]
  cases ho : opcodeOf s with
  | none => simp [execute]
  | some op =>
    simp only
    cases hh : op.handled with
    | false => simp [execute_unhandled op _ _ hh]
    | true =>
      constructor
      · intro h
        exact absurd h (ni_execute op _ hh _)
      · intro h; cases h

theorem caseOpcodes_spec :
    ∀ v, v < 128 → (decide (v ∈ caseOpcodes) =
      match Opcode.ofVal v with
      | some op => op.handled
      | none => false) := by
  decide

/-- C7, as stated, fails: opcode `0x61` (`OP_PUSHM`) is not in the
specification's table, yet the switch has a `case` for it and the step
returns instead of raising the illegal-instruction fault. -/
theorem PUSHM_is_dispatched :
    ¬ (step pushmMachine = .error .illegalInstruction ↔
        (instByte pushmMachine &&& 0x7F) ∉ specOpcodes) := by
  intro h
  have h1 : (instByte pushmMachine &&& 0x7F) ∉ specOpcodes := by decide
  have h2 := h.2 h1
  have h3 : step pushmMachine = .ok (stepState pushmMachine) := rfl
  rw [h3] at h2
  cases h2

/-- C7, amended: leaving aside the opcode values `0x0E`, `0x0F`, `0x65`,
`0x66` (`CMP`, `CMPA`, `PUSHS`, `POPS`), a step whose instruction byte is
fetched from a memory cell is an illegal-instruction fault exactly when the
low 7 bits of that byte are not one of `0x00-0x0C`, `0x10-0x13`, `0x20`,
`0x30-0x32`, `0x40-0x4F`, `0x60-0x64`, `0x7E`, `0x7F`: each of these is
dispatched to a handler (`PUSHM 0x61` and `PUSHC 0x62` included), every other
value raises the fault and the step yields no state. -/
theorem illegal_instruction_iff (s : Machine) (hpc : s.aligned PC < MEM_SIZE)
    (_hu : (instByte s &&& 0x7F) ∉ undispatchedOpcodes) :
    step s = .error .illegalInstruction ↔ (instByte s &&& 0x7F) ∉ caseOpcodes := by
  rw [step_illegal_iff s hpc]
  have hlt : instByte s &&& 0x7F < 128 := Nat.lt_succ_of_le Nat.and_le_right
  have hc := caseOpcodes_spec _ hlt
  unfold dispatched opcodeOf
  rw [← hc]
  simp

/-- C7, amended, at the `PUSHM` machine: the step is not an
illegal-instruction fault, `0x61` being a `case` label. -/
theorem illegal_instruction_iff_PUSHM :
    (pushmMachine.aligned PC < MEM_SIZE ∧
      (instByte pushmMachine &&& 0x7F) ∉ undispatchedOpcodes) ∧
    (step pushmMachine = .error .illegalInstruction ↔
      (instByte pushmMachine &&& 0x7F) ∉ caseOpcodes) :=
  ⟨⟨by decide, by decide⟩, illegal_instruction_iff pushmMachine (by decide) (by decide)⟩

/-- C8 on the code: the byte `0x65` decodes to `OP_PUSHS`, which has no `case`
label, so the step that fetches it ends in the illegal-instruction fault; and
so does `Execute` from that state. -/
theorem PUSHS_is_illegal :
    Opcode.ofVal 0x65 = some OP_PUSHS ∧
    step pushsMachine = .error .illegalInstruction ∧
    Execute 10 pushsMachine = .error .illegalInstruction :=
  ⟨by decide, rfl, rfl⟩

/-! ## Word and stack round trips -/

theorem low_byte (v : Nat) : (v &&& 0xFF) % 256 = v % 256 := by
  have h : v &&& 0xFF = v % 256 := Nat.and_pow_two_sub_one_eq_mod v 8
  rw [h, Nat.mod_mod]

theorem high_byte (v : Nat) (hv : v < 65536) : (v >>> 8) % 256 = v / 256 := by
  have h : v >>> 8 = v / 256 := Nat.shiftRight_eq_div_pow v 8
  rw [h]
  omega

theorem WriteWord_eq (a v : Nat) (s : Machine) :
    WriteWord a v s =
      if a < MEM_SIZE ∧ (a + 1) % 65536 < MEM_SIZE then
        .ok ((), { s with
          Data := upd (upd s.Data a ((v &&& 0xFF) % 256)) ((a + 1) % 65536) ((v >>> 8) % 256),
          cycles := s.cycles - 2, accessed := s.accessed + 2 })
      else .error .memoryIndex := by
  simp only [WriteWord, Exec.bind_apply, charge, memSet]
  by_cases h1 : a < MEM_SIZE
  · by_cases h2 : (a + 1) % 65536 < MEM_SIZE
    · simp [h1, h2]
    · simp [h1, h2]
  · simp [h1]

theorem ReadWord_eq (a : Nat) (s : Machine) :
    ReadWord a s =
      if a < MEM_SIZE ∧ (a + 1) % 65536 < MEM_SIZE then
        .ok ((s.Data a ||| (s.Data ((a + 1) % 65536) <<< 8)) % 65536,
          { s with cycles := s.cycles - 2, accessed := s.accessed + 2 })
      else .error .memoryIndex := by
  simp only [ReadWord, Exec.bind_apply, Exec.pure_apply, charge, memGet]
  by_cases h1 : a < MEM_SIZE
  · by_cases h2 : (a + 1) % 65536 < MEM_SIZE
    · simp [h1, h2]
    · simp [h1, h2]
  · simp [h1]

/-- Writing a word and reading it back, at an address whose two bytes are
both cells of the memory array. -/
theorem WriteWord_ReadWord (a v : Nat) (s : Machine) (hv : v < 65536)
    (h1 : a < MEM_SIZE) (h2 : (a + 1) % 65536 < MEM_SIZE) :
    ∃ s1 s2, WriteWord a v s = .ok ((), s1) ∧ ReadWord a s1 = .ok (v, s2) ∧
      s1.Data a = v % 256 ∧ s1.Data ((a + 1) % 65536) = v / 256 ∧
      (∀ c, c ≠ a → c ≠ (a + 1) % 65536 → s1.Data c = s.Data c) ∧
      s2.Data = s1.Data ∧ s1.aligned = s.aligned ∧ s2.aligned = s.aligned ∧
      s2.cycles = s.cycles - 4 := by
  have hne : a ≠ (a + 1) % 65536 := by unfold MEM_SIZE at h1; omega
  have hw : WriteWord a v s = .ok ((), { s with
      Data := upd (upd s.Data a (v % 256)) ((a + 1) % 65536) (v / 256),
      cycles := s.cycles - 2, accessed := s.accessed + 2 }) := by
    rw [WriteWord_eq, if_pos ⟨h1, h2⟩, low_byte, high_byte v hv]
  have hr : ReadWord a { s with
      Data := upd (upd s.Data a (v % 256)) ((a + 1) % 65536) (v / 256),
      cycles := s.cycles - 2, accessed := s.accessed + 2 } = .ok (v, { s with
      Data := upd (upd s.Data a (v % 256)) ((a + 1) % 65536) (v / 256),
      cycles := s.cycles - 2 - 2, accessed := s.accessed + 2 + 2 }) := by
    rw [ReadWord_eq, if_pos ⟨h1, h2⟩]
    simp only [upd_ne _ _ hne, upd_same, word_of_bytes v hv]
  refine ⟨_, _, hw, hr, ?_, ?_, ?_, rfl, rfl, rfl, ?_⟩
  · simp only [upd_ne _ _ hne, upd_same]
  · simp only [upd_same]
  · intro c hc1 hc2
    simp only [upd_ne _ _ hc2, upd_ne _ _ hc1]
  · simp only; ring

theorem toWord_lt (i : Int) : toWord i < 65536 := by
  unfold toWord
  omega

theorem StackPushWord_eq (v : Nat) (s : Machine) :
    StackPushWord v s =
      WriteWord (toWord ((s.aligned SP : Int) - 2)) v
        { s with aligned := upd s.aligned SP (toWord ((s.aligned SP : Int) - 2)) } := by
  simp [StackPushWord, Exec.bind_apply, regGet, regSet, SP, Nat.mod_eq_of_lt (toWord_lt _)]

theorem StackPopWord_eq (s : Machine) :
    StackPopWord s =
      match ReadWord (s.aligned SP) s with
      | .ok (value, s1) =>
        .ok (value, { s1 with aligned := upd s1.aligned SP ((s.aligned SP + 2) % 65536) })
      | .error e => .error e := by
  simp only [StackPopWord, Exec.bind_apply, Exec.pure_apply, regGet, regSet, SP]
  cases h : ReadWord (s.aligned 7) s with
  | error e => simp [h]
  | ok p => simp [h]

theorem StackPushByte_eq (b : Nat) (s : Machine) :
    StackPushByte b s =
      WriteByte (toWord ((s.aligned SP : Int) - 1)) b
        { s with aligned := upd s.aligned SP (toWord ((s.aligned SP : Int) - 1)) } := by
  simp [StackPushByte, Exec.bind_apply, regGet, regSet, SP, Nat.mod_eq_of_lt (toWord_lt _)]

theorem WriteByte_eq (a b : Nat) (s : Machine) :
    WriteByte a b s =
      if a < MEM_SIZE then
        .ok ((), { s with Data := upd s.Data a (b % 256),
                          cycles := s.cycles - 1, accessed := s.accessed + 1 })
      else .error .memoryIndex := by
  simp only [WriteByte, Exec.bind_apply, charge, memSet]
  by_cases h1 : a < MEM_SIZE
  · simp [h1]
  · simp [h1]

theorem StackPopByte_eq (s : Machine) :
    StackPopByte s =
      if s.aligned SP < MEM_SIZE then
        .ok (s.Data (s.aligned SP) % 256,
          { s with aligned := upd s.aligned SP ((s.aligned SP + 1) % 65536),
                   cycles := s.cycles - 1, accessed := s.accessed + 1 })
      else .error .memoryIndex := by
  simp only [StackPopByte, ReadByte, Exec.bind_apply, Exec.pure_apply, charge, memGet, regGet,
    regSet, SP]
  by_cases h1 : s.aligned 7 < MEM_SIZE
  · simp [h1]
  · simp [h1]

/-- C9. In a state whose stack pointer is a 16-bit value and whose touched
stack addresses are cells of the memory array, `StackPushWord(v)` followed by
`StackPopWord` returns `v`, restores SP and charges 4 cycles, and
`StackPushByte(b)` followed by `StackPopByte` returns `b`, restores SP and
charges 2 cycles.  The push first lowers SP (by 2, by 1) modulo `2^16` and
stores at the new SP, little-endian; the pop reads at SP and then raises it
modulo `2^16`. -/
theorem stack_push_pop (s : Machine) (v b : Nat) (hv : v < 65536) (hb : b < 256)
    (hsp : s.aligned SP < 65536) :
    (toWord ((s.aligned SP : Int) - 2) < MEM_SIZE →
      (toWord ((s.aligned SP : Int) - 2) + 1) % 65536 < MEM_SIZE →
      ∃ s1 s2, StackPushWord v s = .ok ((), s1) ∧
        s1.aligned SP = toWord ((s.aligned SP : Int) - 2) ∧
        s1.Data (s1.aligned SP) = v % 256 ∧ s1.Data ((s1.aligned SP + 1) % 65536) = v / 256 ∧
        StackPopWord s1 = .ok (v, s2) ∧
        s2.aligned SP = (s1.aligned SP + 2) % 65536 ∧
        s2.aligned SP = s.aligned SP ∧ s2.cycles = s.cycles - 4) ∧
    (toWord ((s.aligned SP : Int) - 1) < MEM_SIZE →
      ∃ s1 s2, StackPushByte b s = .ok ((), s1) ∧
        s1.aligned SP = toWord ((s.aligned SP : Int) - 1) ∧
        s1.Data (s1.aligned SP) = b ∧
        StackPopByte s1 = .ok (b, s2) ∧
        s2.aligned SP = (s1.aligned SP + 1) % 65536 ∧
        s2.aligned SP = s.aligned SP ∧ s2.cycles = s.cycles - 2) := by
  constructor
  · intro h1 h2
    obtain ⟨s1, s2, hw, hr, hlo, hhi, -, hd, ha1, ha2, hc⟩ :=
      WriteWord_ReadWord (toWord ((s.aligned SP : Int) - 2)) v
        { s with aligned := upd s.aligned SP (toWord ((s.aligned SP : Int) - 2)) } hv h1 h2
    have hsp1 : s1.aligned SP = toWord ((s.aligned SP : Int) - 2) := by
      rw [ha1]; simp only [upd_same]
    have hback : (toWord ((s.aligned SP : Int) - 2) + 2) % 65536 = s.aligned SP := by
      unfold toWord; omega
    refine ⟨s1, { s2 with aligned := upd s2.aligned SP ((s1.aligned SP + 2) % 65536) },
      ?_, hsp1, ?_, ?_, ?_, ?_, ?_, hc⟩
    · rw [StackPushWord_eq]; exact hw
    · rw [hsp1]; exact hlo
    · rw [hsp1]; exact hhi
    · rw [StackPopWord_eq, hsp1, hr]
    · simp only [upd_same]
    · simp only [upd_same, hsp1, hback]
  · intro h1
    have hback : (toWord ((s.aligned SP : Int) - 1) + 1) % 65536 = s.aligned SP := by
      unfold toWord; omega
    refine ⟨{ s with aligned := upd s.aligned SP (toWord ((s.aligned SP : Int) - 1)),
                     Data := upd s.Data (toWord ((s.aligned SP : Int) - 1)) b,
                     cycles := s.cycles - 1, accessed := s.accessed + 1 },
      { s with aligned := upd s.aligned SP (s.aligned SP),
               Data := upd s.Data (toWord ((s.aligned SP : Int) - 1)) b,
               cycles := s.cycles - 1 - 1, accessed := s.accessed + 1 + 1 },
      ?_, ?_, ?_, ?_, ?_, ?_, ?_⟩
    · rw [StackPushByte_eq, WriteByte_eq, if_pos h1, Nat.mod_eq_of_lt hb]
    · simp only [upd_same]
    · simp only [upd_same]
    · rw [StackPopByte_eq]
      simp only [upd_same, upd_upd, if_pos h1, Nat.mod_eq_of_lt hb, hback]
    · simp only [upd_same, hback]
    · simp only [upd_same]
    · simp only; ring

/-- C9 at the reset machine (`SP = 0xFFFF`) with `v = 0xBEEF`, `b = 0xAB`. -/
theorem stack_push_pop_reset :
    (0xBEEF < 65536 ∧ 0xAB < 256 ∧ resetMachine.aligned SP < 65536 ∧
      toWord ((resetMachine.aligned SP : Int) - 2) < MEM_SIZE ∧
      (toWord ((resetMachine.aligned SP : Int) - 2) + 1) % 65536 < MEM_SIZE ∧
      toWord ((resetMachine.aligned SP : Int) - 1) < MEM_SIZE) ∧
    (∃ s1 s2, StackPushWord 0xBEEF resetMachine = .ok ((), s1) ∧
      s1.aligned SP = toWord ((resetMachine.aligned SP : Int) - 2) ∧
      s1.Data (s1.aligned SP) = 0xBEEF % 256 ∧
      s1.Data ((s1.aligned SP + 1) % 65536) = 0xBEEF / 256 ∧
      StackPopWord s1 = .ok (0xBEEF, s2) ∧
      s2.aligned SP = (s1.aligned SP + 2) % 65536 ∧
      s2.aligned SP = resetMachine.aligned SP ∧ s2.cycles = resetMachine.cycles - 4) ∧
    (∃ s1 s2, StackPushByte 0xAB resetMachine = .ok ((), s1) ∧
      s1.aligned SP = toWord ((resetMachine.aligned SP : Int) - 1) ∧
      s1.Data (s1.aligned SP) = 0xAB ∧
      StackPopByte s1 = .ok (0xAB, s2) ∧
      s2.aligned SP = (s1.aligned SP + 1) % 65536 ∧
      s2.aligned SP = resetMachine.aligned SP ∧ s2.cycles = resetMachine.cycles - 2) :=
  ⟨⟨by decide, by decide, by decide, by decide, by decide, by decide⟩,
    (stack_push_pop resetMachine 0xBEEF 0xAB (by decide) (by decide) (by decide)).1
      (by decide) (by decide),
    (stack_push_pop resetMachine 0xBEEF 0xAB (by decide) (by decide) (by decide)).2
      (by decide)⟩

/-- C10 on the code: `WriteWord(0xFFFE, v)` stores its high byte at
`Data[0xFFFF]`, one past the last cell of the `MEM_SIZE = 0xFFFF` byte array,
and so does `ReadWord(0xFFFE)` read there: neither completes inside the
array, although `0xFFFE < 0xFFFF`. -/
theorem WriteWord_0xFFFE_out_of_range :
    0xFFFE < 0xFFFF ∧ (0xFFFE + 1) % 65536 = MEM_SIZE ∧
    WriteWord 0xFFFE 0x1234 resetMachine = .error .memoryIndex ∧
    ReadWord 0xFFFE resetMachine = .error .memoryIndex :=
  ⟨by decide, by decide, rfl, rfl⟩

/-! ## The loop of `Execute` ends by its guard -/

theorem step_cycles_lt {s s1 : Machine} (h : step s = .ok s1) : s1.cycles < s.cycles := by
  obtain ⟨k, hk, hc, -, -⟩ := step_balance h
  omega

/-- The unrolling bound is never what stops the loop: with at least
`cycles` iterations allowed, the returned state fails the loop guard. -/
theorem ExecuteLoop_exit (fuel : Nat) :
    ∀ (s s1 : Machine), s.cycles ≤ fuel → ExecuteLoop fuel s = .ok s1 →
      s1.halted = true ∨ s1.cycles ≤ 0 := by
  induction fuel with
  | zero =>
    intro s s1 hf h
    cases h
    right
    simpa using hf
  | succ f ih =>
    intro s s1 hf h
    rw [ExecuteLoop_succ] at h
    split_ifs at h with hg
    · cases hs : step s with
      | error e => rw [hs] at h; cases h
      | ok s2 =>
        rw [hs] at h
        have := step_cycles_lt hs
        exact ih s2 s1 (by push_cast at hf; omega) h
    · cases h
      by_cases hc : 0 < s.cycles
      · left
        cases hh : s.halted with
        | true => rfl
        | false => exact absurd ⟨hc, hh⟩ hg
      · right; omega

/-- More unrolling than `cycles` changes nothing. -/
theorem ExecuteLoop_more_fuel (fuel : Nat) :
    ∀ (s : Machine) (extra : Nat), s.cycles ≤ fuel →
      ExecuteLoop (fuel + extra) s = ExecuteLoop fuel s := by
  induction fuel with
  | zero =>
    intro s extra hf
    cases extra with
    | zero => rfl
    | succ k =>
      rw [Nat.zero_add, ExecuteLoop_succ, if_neg]
      · rfl
      · intro hg
        have := hg.1
        simp at hf
        omega
  | succ f ih =>
    intro s extra hf
    rw [Nat.add_right_comm, ExecuteLoop_succ, ExecuteLoop_succ]
    split_ifs with hg
    · cases hs : step s with
      | error e => rfl
      | ok s2 =>
        have := step_cycles_lt hs
        exact ih s2 extra (by push_cast at hf; omega)
    · rfl

/-! ## Single instructions: operands, arithmetic, jumps, calls, halting -/

theorem step_adv {s : Machine} {p : Nat} (hpc : s.aligned PC = p) (hp : p < MEM_SIZE) :
    step s = Exec.run (execute (opcodeOf s) (byteFlagOf s)) (adv s (p + 1) 1) := by
  have e : (p + 1) % 65536 = p + 1 := by unfold MEM_SIZE at hp; omega
  rw [step_eq_decoded, FetchByte_eq, hpc, if_pos hp, e]
  simp [adv]

theorem bind_FetchByte_adv {β : Type} (f : Nat → Exec β) (s : Machine) {q : Nat} (k : Nat)
    (hq : q < MEM_SIZE) :
    (FetchByte >>= f) (adv s q k) = f (s.Data q) (adv s (q + 1) (k + 1)) := by
  have e : (q + 1) % 65536 = q + 1 := by unfold MEM_SIZE at hq; omega
  rw [Exec.bind_apply, FetchByte_eq]
  simp only [adv, upd_same, if_pos hq, e, upd_upd]
  congr 2
  push_cast; ring

theorem bind_FetchWord_adv {β : Type} (f : Nat → Exec β) (s : Machine) {q : Nat} (k : Nat)
    (hq : q + 1 < MEM_SIZE) :
    (FetchWord >>= f) (adv s q k) =
      f ((s.Data q ||| s.Data (q + 1) <<< 8) % 65536) (adv s (q + 2) (k + 2)) := by
  have e1 : (q + 1) % 65536 = q + 1 := by unfold MEM_SIZE at hq; omega
  have e2 : (q + 1 + 1) % 65536 = q + 2 := by unfold MEM_SIZE at hq; omega
  have h0 : q < MEM_SIZE := by omega
  rw [Exec.bind_apply, FetchWord_eq]
  simp only [adv, upd_same, e1, e2, if_pos (And.intro h0 hq), upd_upd]
  congr 2
  push_cast; ring

theorem bind_regGet_adv {β : Type} (f : Nat → Exec β) (s : Machine) (q k : Nat) {reg : Nat}
    (hr : reg < 8) :
    (regGet reg >>= f) (adv s q k) = f (upd s.aligned PC q reg) (adv s q k) := by
  rw [Exec.bind_apply]
  simp only [regGet, if_pos hr, adv]

theorem bind_ReadByte_adv {β : Type} (f : Nat → Exec β) (s : Machine) (q k : Nat) {a : Nat}
    (ha : a < MEM_SIZE) :
    (ReadByte a >>= f) (adv s q k) = f (s.Data a) (adv s q (k + 1)) := by
  rw [Exec.bind_apply]
  simp only [ReadByte, Exec.bind_apply, charge, memGet, if_pos ha, adv]
  congr 2
  push_cast; ring

theorem bind_ReadWord_adv {β : Type} (f : Nat → Exec β) (s : Machine) (q k : Nat) {a : Nat}
    (ha : a + 1 < MEM_SIZE) :
    (ReadWord a >>= f) (adv s q k) =
      f ((s.Data a ||| s.Data (a + 1) <<< 8) % 65536) (adv s q (k + 2)) := by
  have e1 : (a + 1) % 65536 = a + 1 := by unfold MEM_SIZE at ha; omega
  have h0 : a < MEM_SIZE := by omega
  rw [Exec.bind_apply, ReadWord_eq]
  simp only [adv, e1, if_pos (And.intro h0 ha)]
  congr 2
  push_cast; ring

theorem regSet_adv (s : Machine) (q k : Nat) {reg : Nat} (v : Nat) (hr : reg < 8) :
    regSet reg v (adv s q k) =
      .ok ((), { adv s q k with aligned := upd (upd s.aligned PC q) reg (v % 65536) }) := by
  simp only [regSet, if_pos hr, adv]

/-- A little-endian byte pair is the word `lo + 256 * hi`. -/
theorem word_le (lo hi : Nat) (hlo : lo < 256) (hhi : hi < 256) :
    (lo ||| hi <<< 8) % 65536 = lo + 256 * hi := by
  have h1 : lo < 2 ^ 8 := by omega
  have h2 := Nat.mul_add_lt_is_or h1 hi
  rw [Nat.shiftLeft_eq, Nat.lor_comm, Nat.mul_comm, ← h2]
  omega

theorem bind_fetchOperand_adv {β : Type} (f : Nat → Exec β) (s : Machine) {q : Nat} (k : Nat)
    (W : Bool) (hq : q + width W ≤ MEM_SIZE) :
    (fetchOperand W >>= f) (adv s q k) =
      f (operandAt s q W) (adv s (q + width W) (k + width W)) := by
  cases W
  · simp only [width, Bool.false_eq_true, if_false] at hq
    simp only [fetchOperand, operandAt, width, Bool.false_eq_true, if_false]
    exact bind_FetchWord_adv f s k (by omega)
  · simp only [width, if_true] at hq
    simp only [fetchOperand, operandAt, width, if_true]
    exact bind_FetchByte_adv f s k (by omega)

theorem bind_readOperand_adv {β : Type} (f : Nat → Exec β) (s : Machine) (q k : Nat) {a : Nat}
    (W : Bool) (ha : a + width W ≤ MEM_SIZE) :
    (readOperand W a >>= f) (adv s q k) = f (operandAt s a W) (adv s q (k + width W)) := by
  cases W
  · simp only [width, Bool.false_eq_true, if_false] at ha
    simp only [readOperand, operandAt, width, Bool.false_eq_true, if_false]
    exact bind_ReadWord_adv f s q k (by omega)
  · simp only [width, if_true] at ha
    simp only [readOperand, operandAt, width, if_true]
    exact bind_ReadByte_adv f s q k (by omega)

theorem arithInto_adv (a : Arith) (s : Machine) (q k : Nat) {reg : Nat} (value : Nat)
    (hr : reg < 8) :
    arithInto a reg value (adv s q k) =
      match a.eval (upd s.aligned PC q reg) value with
      | .ok v => .ok ((), { adv s q k with
          aligned := upd (upd s.aligned PC q) reg (toWord v) })
      | .error e => .error e := by
  unfold arithInto
  rw [bind_regGet_adv _ _ _ _ hr]
  cases a.eval (upd s.aligned PC q reg) value with
  | error e => rfl
  | ok v =>
    simp only
    rw [regSet_adv _ _ _ _ hr, Nat.mod_eq_of_lt (toWord_lt v)]

theorem execRR_adv (a : Arith) (s : Machine) (q k : Nat) (hq : q + 1 < MEM_SIZE)
    (h1 : s.Data q < 8) (h2 : s.Data (q + 1) < 8) :
    execRR a (adv s q k) =
      match a.eval (upd s.aligned PC (q + 2) (s.Data q)) (upd s.aligned PC (q + 2) (s.Data (q + 1))) with
      | .ok v => .ok ((), { adv s (q + 2) (k + 2) with
          aligned := upd (upd s.aligned PC (q + 2)) (s.Data q) (toWord v) })
      | .error e => .error e := by
  unfold execRR
  rw [bind_FetchByte_adv _ _ _ (by omega), bind_FetchByte_adv _ _ _ (by omega),
    bind_regGet_adv _ _ _ _ h2, arithInto_adv _ _ _ _ _ h1]

theorem execRC_adv (a : Arith) (W : Bool) (s : Machine) (q k : Nat)
    (hq : q + 1 + width W ≤ MEM_SIZE) (h1 : s.Data q < 8) :
    execRC a W (adv s q k) =
      match a.eval (upd s.aligned PC (q + 1 + width W) (s.Data q)) (operandAt s (q + 1) W) with
      | .ok v => .ok ((), { adv s (q + 1 + width W) (k + 1 + width W) with
          aligned := upd (upd s.aligned PC (q + 1 + width W)) (s.Data q) (toWord v) })
      | .error e => .error e := by
  unfold execRC
  rw [bind_FetchByte_adv _ _ _ (by omega), bind_fetchOperand_adv _ _ _ _ hq,
    arithInto_adv _ _ _ _ _ h1]

theorem execRA_adv (a : Arith) (W : Bool) (s : Machine) (q k : Nat)
    (hq : q + 2 < MEM_SIZE) (h1 : s.Data q < 8)
    (ha : operandAt s (q + 1) false + width W ≤ MEM_SIZE) :
    execRA a W (adv s q k) =
      match a.eval (upd s.aligned PC (q + 3) (s.Data q))
          (operandAt s (operandAt s (q + 1) false) W) with
      | .ok v => .ok ((), { adv s (q + 3) (k + 3 + width W) with
          aligned := upd (upd s.aligned PC (q + 3)) (s.Data q) (toWord v) })
      | .error e => .error e := by
  unfold execRA
  rw [bind_FetchByte_adv _ _ _ (by omega), bind_FetchWord_adv _ _ _ (by omega)]
  have e : (s.Data (q + 1) ||| s.Data (q + 1 + 1) <<< 8) % 65536 = operandAt s (q + 1) false := by
    simp [operandAt]
  rw [e, bind_readOperand_adv _ _ _ _ _ ha, arithInto_adv _ _ _ _ _ h1]

/-- C12. `LDC reg, imm` with a register index `reg` in 0..7, fetched from
memory cells: in byte form (`W = 1`, three bytes, three cycles) it leaves
`R[reg]` equal to the immediate byte `lo`, zero-extended; in word form
(`W = 0`, four bytes, four cycles) equal to the little-endian immediate
`lo + 256 * hi`.  When `reg` is not the PC the PC ends just past the
instruction; every register other than `reg` and the PC, all memory, the
status byte and the halted flag are unchanged. -/
theorem LDC_loads_immediate (s : Machine) (p reg lo hi : Nat)
    (hpc : s.aligned PC = p) (hop : opcodeOf s = some OP_LDC)
    (hreg : s.Data (p + 1) = reg) (hr : reg < 8)
    (hlo : s.Data (p + 2) = lo) (hlo8 : lo < 256) :
    (byteFlagOf s = true → p + 2 < MEM_SIZE →
      ∃ s1, step s = .ok s1 ∧ s1.aligned reg = lo ∧
        (reg ≠ PC → s1.aligned PC = p + 3) ∧
        (∀ i, i ≠ reg → i ≠ PC → s1.aligned i = s.aligned i) ∧
        s1.Data = s.Data ∧ s1.status = s.status ∧ s1.halted = s.halted ∧
        s1.cycles = s.cycles - 3) ∧
    (byteFlagOf s = false → p + 3 < MEM_SIZE → s.Data (p + 3) = hi → hi < 256 →
      ∃ s1, step s = .ok s1 ∧ s1.aligned reg = lo + 256 * hi ∧
        (reg ≠ PC → s1.aligned PC = p + 4) ∧
        (∀ i, i ≠ reg → i ≠ PC → s1.aligned i = s.aligned i) ∧
        s1.Data = s.Data ∧ s1.status = s.status ∧ s1.halted = s.halted ∧
        s1.cycles = s.cycles - 4) := by
  constructor
  · intro hW hp
    refine ⟨{ adv s (p + 3) 3 with aligned := upd (upd s.aligned PC (p + 3)) reg lo }, ?_, ?_⟩
    · rw [step_adv hpc (by omega), hop, hW, Exec.run_ok_iff]
      simp only [execute, fetchOperand, if_true]
      rw [bind_FetchByte_adv _ _ _ (by omega), bind_FetchByte_adv _ _ _ (by omega), hreg, hlo,
        regSet_adv _ _ _ _ hr, Nat.mod_eq_of_lt (by omega)]
    · refine ⟨by simp, ?_, ?_, rfl, rfl, rfl, by simp [adv]⟩
      · intro h; simp [upd_ne _ _ (Ne.symm h)]
      · intro i h1 h2; simp [upd_ne _ _ h1, upd_ne _ _ h2]
  · intro hW hp hhi hhi8
    refine ⟨{ adv s (p + 4) 4 with
        aligned := upd (upd s.aligned PC (p + 4)) reg (lo + 256 * hi) }, ?_, ?_⟩
    · rw [step_adv hpc (by omega), hop, hW, Exec.run_ok_iff]
      simp only [execute, fetchOperand, Bool.false_eq_true, if_false]
      rw [bind_FetchByte_adv _ _ _ (by omega), bind_FetchWord_adv _ _ _ (by omega), hreg, hlo,
        hhi, regSet_adv _ _ _ _ hr, word_le lo hi hlo8 hhi8, Nat.mod_eq_of_lt (by omega)]
    · refine ⟨by simp, ?_, ?_, rfl, rfl, rfl, by simp [adv]⟩
      · intro h; simp [upd_ne _ _ (Ne.symm h)]
      · intro i h1 h2; simp [upd_ne _ _ h1, upd_ne _ _ h2]

theorem toWord_add (a b : Nat) : toWord ((a : Int) + b) = (a + b) % 65536 := by
  unfold toWord
  omega

theorem toWord_mul (a b : Nat) : toWord ((a : Int) * b) = (a * b) % 65536 := by
  have h : ((a : Int) * b) = ((a * b : Nat) : Int) := by push_cast; rfl
  rw [h]
  unfold toWord
  omega

theorem toWord_cast (i : Int) : ((toWord i : Nat) : Int) = i % 65536 := by
  unfold toWord
  omega

theorem toWord_div (n d : Nat) (hn : n < 65536) : toWord ((n / d : Nat) : Int) = n / d := by
  have h := Nat.div_le_self n d
  generalize n / d = m at h ⊢
  unfold toWord
  omega

theorem step_RR {s : Machine} {p : Nat} (a : Arith) (hpc : s.aligned PC = p)
    (hp : p + 2 < MEM_SIZE) (hex : execute (opcodeOf s) (byteFlagOf s) = execRR a)
    (h1 : s.Data (p + 1) < 8) (h2 : s.Data (p + 2) < 8) :
    step s =
      match a.eval (upd s.aligned PC (p + 3) (s.Data (p + 1)))
          (upd s.aligned PC (p + 3) (s.Data (p + 2))) with
      | .ok v => .ok { adv s (p + 3) 3 with
          aligned := upd (upd s.aligned PC (p + 3)) (s.Data (p + 1)) (toWord v) }
      | .error e => .error e := by
  rw [step_adv hpc (by omega), hex]
  unfold Exec.run
  rw [execRR_adv a s (p + 1) 1 (by omega) h1 h2]
  cases a.eval (upd s.aligned PC (p + 3) (s.Data (p + 1)))
      (upd s.aligned PC (p + 3) (s.Data (p + 2))) <;> rfl

theorem step_RC {s : Machine} {p : Nat} (a : Arith) (hpc : s.aligned PC = p)
    (hp : p + 2 + width (byteFlagOf s) ≤ MEM_SIZE)
    (hex : execute (opcodeOf s) (byteFlagOf s) = execRC a (byteFlagOf s))
    (h1 : s.Data (p + 1) < 8) :
    step s =
      match a.eval (upd s.aligned PC (p + 2 + width (byteFlagOf s)) (s.Data (p + 1)))
          (operandAt s (p + 2) (byteFlagOf s)) with
      | .ok v => .ok { adv s (p + 2 + width (byteFlagOf s)) (2 + width (byteFlagOf s)) with
          aligned := upd (upd s.aligned PC (p + 2 + width (byteFlagOf s))) (s.Data (p + 1))
            (toWord v) }
      | .error e => .error e := by
  have hw : 1 ≤ width (byteFlagOf s) := by unfold width; split <;> omega
  rw [step_adv hpc (by omega), hex]
  unfold Exec.run
  rw [execRC_adv a _ s (p + 1) 1 (by omega) h1]
  cases a.eval (upd s.aligned PC (p + 2 + width (byteFlagOf s)) (s.Data (p + 1)))
      (operandAt s (p + 2) (byteFlagOf s)) <;> rfl

theorem step_RA {s : Machine} {p : Nat} (a : Arith) (hpc : s.aligned PC = p)
    (hp : p + 3 < MEM_SIZE)
    (hex : execute (opcodeOf s) (byteFlagOf s) = execRA a (byteFlagOf s))
    (h1 : s.Data (p + 1) < 8)
    (ha : operandAt s (p + 2) false + width (byteFlagOf s) ≤ MEM_SIZE) :
    step s =
      match a.eval (upd s.aligned PC (p + 4) (s.Data (p + 1)))
          (operandAt s (operandAt s (p + 2) false) (byteFlagOf s)) with
      | .ok v => .ok { adv s (p + 4) (4 + width (byteFlagOf s)) with
          aligned := upd (upd s.aligned PC (p + 4)) (s.Data (p + 1)) (toWord v) }
      | .error e => .error e := by
  rw [step_adv hpc (by omega), hex]
  unfold Exec.run
  rw [execRA_adv a _ s (p + 1) 1 (by omega) h1 ha]
  cases a.eval (upd s.aligned PC (p + 4) (s.Data (p + 1)))
      (operandAt s (operandAt s (p + 2) false) (byteFlagOf s)) <;> rfl

theorem sameExcept_set (s : Machine) (q k reg v : Nat) :
    SameExcept s { adv s q k with aligned := upd (upd s.aligned PC q) reg v } reg := by
  refine ⟨?_, rfl, rfl, rfl⟩
  intro i h1 h2
  simp only [upd_ne _ _ h1, upd_ne _ _ h2]

theorem RR_result {s : Machine} {p reg1 reg2 : Nat} (a : Arith) (v : Int)
    (hpc : s.aligned PC = p) (hp : p + 2 < MEM_SIZE)
    (hex : execute (opcodeOf s) (byteFlagOf s) = execRR a)
    (h1 : s.Data (p + 1) = reg1) (h2 : s.Data (p + 2) = reg2) (hr1 : reg1 < 6) (hr2 : reg2 < 6)
    (hv : a.eval (s.aligned reg1) (s.aligned reg2) = .ok v) :
    ∃ s1, step s = .ok s1 ∧ s1.aligned reg1 = toWord v ∧ s1.aligned PC = p + 3 ∧
      SameExcept s s1 reg1 ∧ s1.cycles = s.cycles - 3 := by
  have n1 : reg1 ≠ PC := by unfold PC; omega
  have n2 : reg2 ≠ PC := by unfold PC; omega
  have hs := step_RR a hpc hp hex (by omega) (by omega)
  rw [h1, h2, upd_ne _ _ n1, upd_ne _ _ n2, hv] at hs
  exact ⟨_, hs, by simp only [upd_same], by simp only [upd_ne _ _ (Ne.symm n1), upd_same],
    sameExcept_set _ _ _ _ _, by simp [adv]⟩

/-- C16. `ADD`, `SUB`, `MUL reg1, reg2` with `reg1`, `reg2` in 0..5 (equal
or distinct), fetched from memory cells: `R[reg1]` becomes the sum, the
difference, the product of the old `R[reg1]` and `R[reg2]` modulo `2^16`, the
PC advances by 3, and every other register (SP included), all memory, the
status byte and the halted flag are unchanged. -/
theorem arith_RR_wraps (s : Machine) (p reg1 reg2 : Nat) (hpc : s.aligned PC = p)
    (hp : p + 2 < MEM_SIZE) (h1 : s.Data (p + 1) = reg1) (h2 : s.Data (p + 2) = reg2)
    (hr1 : reg1 < 6) (hr2 : reg2 < 6) :
    (opcodeOf s = some OP_ADD →
      ∃ s1, step s = .ok s1 ∧
        s1.aligned reg1 = (s.aligned reg1 + s.aligned reg2) % 65536 ∧
        s1.aligned PC = p + 3 ∧ SameExcept s s1 reg1) ∧
    (opcodeOf s = some OP_SUB →
      ∃ s1, step s = .ok s1 ∧
        (s1.aligned reg1 : Int) = ((s.aligned reg1 : Int) - s.aligned reg2) % 65536 ∧
        s1.aligned PC = p + 3 ∧ SameExcept s s1 reg1) ∧
    (opcodeOf s = some OP_MUL →
      ∃ s1, step s = .ok s1 ∧
        s1.aligned reg1 = (s.aligned reg1 * s.aligned reg2) % 65536 ∧
        s1.aligned PC = p + 3 ∧ SameExcept s s1 reg1) := by
  refine ⟨?_, ?_, ?_⟩
  · intro hop
    obtain ⟨s1, hs, hv, hpc1, hf, -⟩ :=
      RR_result .add _ hpc hp (by rw [hop]; rfl) h1 h2 hr1 hr2 rfl
    exact ⟨s1, hs, by rw [hv, toWord_add], hpc1, hf⟩
  · intro hop
    obtain ⟨s1, hs, hv, hpc1, hf, -⟩ :=
      RR_result .sub _ hpc hp (by rw [hop]; rfl) h1 h2 hr1 hr2 rfl
    exact ⟨s1, hs, by rw [hv, toWord_cast], hpc1, hf⟩
  · intro hop
    obtain ⟨s1, hs, hv, hpc1, hf, -⟩ :=
      RR_result .mul _ hpc hp (by rw [hop]; rfl) h1 h2 hr1 hr2 rfl
    exact ⟨s1, hs, by rw [hv, toWord_mul], hpc1, hf⟩

theorem RC_byte_result {s : Machine} {p reg b : Nat} (a : Arith) (v : Int)
    (hpc : s.aligned PC = p) (hp : p + 2 < MEM_SIZE) (hW : byteFlagOf s = true)
    (hex : execute (opcodeOf s) (byteFlagOf s) = execRC a (byteFlagOf s))
    (h1 : s.Data (p + 1) = reg) (hr : reg < 6) (hb : s.Data (p + 2) = b)
    (hv : a.eval (s.aligned reg) b = .ok v) :
    ∃ s1, step s = .ok s1 ∧ s1.aligned reg = toWord v ∧ s1.aligned PC = p + 3 ∧
      SameExcept s s1 reg ∧ s1.cycles = s.cycles - 3 := by
  have n1 : reg ≠ PC := by unfold PC; omega
  have hw : width (byteFlagOf s) = 1 := by rw [hW]; rfl
  have hs := step_RC a hpc (by rw [hw]; omega) hex (by omega)
  have ho : operandAt s (p + 2) (byteFlagOf s) = b := by rw [hW]; simp [operandAt, hb]
  rw [hw, h1, ho, upd_ne _ _ n1, hv] at hs
  exact ⟨_, hs, by simp only [upd_same], by simp only [upd_ne _ _ (Ne.symm n1), upd_same],
    sameExcept_set _ _ _ _ _, by simp [adv]⟩

set_option maxRecDepth 100000 in
theorem addcByteMachine_observed :
    observe (step addcByteMachine) = some (0x0100, 3, false, -3) := by
  decide

/-- C15, as stated, fails: `ADDC.b R0, 0x01` with `R0 = 0x00FF` leaves
`R0 = 0x0100`, not `(0xFF + 1) mod 2^8 = 0`. -/
theorem ADDC_byte_no_wrap :
    addcByteMachine.aligned 0 = 0x00FF ∧
    ¬ ∃ s1, step addcByteMachine = .ok s1 ∧ s1.aligned 0 = (0x00FF + 1) % 256 := by
  refine ⟨by decide, ?_⟩
  rintro ⟨s1, hs, h0⟩
  obtain ⟨s2, hs2, h2, -⟩ := observe_some addcByteMachine_observed
  rw [hs] at hs2
  cases hs2
  omega

/-- C15, amended: byte-form `ADDC`, `SUBC`, `MULC reg, b` with `reg` in 0..5
wrap modulo `2^16`, as the word forms do: `R[reg]` becomes `(r + b) mod 2^16`,
`(r - b) mod 2^16`, `(r * b) mod 2^16` for the old value `r` and the
immediate byte `b`; the PC advances by 3 and nothing else changes. -/
theorem arith_RC_byte_wraps (s : Machine) (p reg b : Nat) (hpc : s.aligned PC = p)
    (hp : p + 2 < MEM_SIZE) (hW : byteFlagOf s = true)
    (h1 : s.Data (p + 1) = reg) (hr : reg < 6) (hb : s.Data (p + 2) = b) :
    (opcodeOf s = some OP_ADDC →
      ∃ s1, step s = .ok s1 ∧ s1.aligned reg = (s.aligned reg + b) % 65536 ∧
        s1.aligned PC = p + 3 ∧ SameExcept s s1 reg) ∧
    (opcodeOf s = some OP_SUBC →
      ∃ s1, step s = .ok s1 ∧
        (s1.aligned reg : Int) = ((s.aligned reg : Int) - b) % 65536 ∧
        s1.aligned PC = p + 3 ∧ SameExcept s s1 reg) ∧
    (opcodeOf s = some OP_MULC →
      ∃ s1, step s = .ok s1 ∧ s1.aligned reg = (s.aligned reg * b) % 65536 ∧
        s1.aligned PC = p + 3 ∧ SameExcept s s1 reg) := by
  refine ⟨?_, ?_, ?_⟩
  · intro hop
    obtain ⟨s1, hs, hv, hpc1, hf, -⟩ :=
      RC_byte_result .add _ hpc hp hW (by rw [hop]; rfl) h1 hr hb rfl
    exact ⟨s1, hs, by rw [hv, toWord_add], hpc1, hf⟩
  · intro hop
    obtain ⟨s1, hs, hv, hpc1, hf, -⟩ :=
      RC_byte_result .sub _ hpc hp hW (by rw [hop]; rfl) h1 hr hb rfl
    exact ⟨s1, hs, by rw [hv, toWord_cast], hpc1, hf⟩
  · intro hop
    obtain ⟨s1, hs, hv, hpc1, hf, -⟩ :=
      RC_byte_result .mul _ hpc hp hW (by rw [hop]; rfl) h1 hr hb rfl
    exact ⟨s1, hs, by rw [hv, toWord_mul], hpc1, hf⟩

theorem ExecuteLoop_fault {s : Machine} {e : Fault} (fuel : Nat) (hc : 0 < s.cycles)
    (hh : s.halted = false) (hs : step s = .error e) :
    ExecuteLoop (fuel + 1) s = .error e := by
  rw [ExecuteLoop_succ, if_pos ⟨hc, hh⟩, hs]

theorem regsAt_lt {s : Machine} {q reg : Nat} (hq : q < 65536) (hr : reg < 8)
    (hwf : ∀ i, i < 8 → s.aligned i < 65536) : regsAt s q reg < 65536 := by
  unfold regsAt upd
  split
  · exact hq
  · exact hwf reg hr

theorem divOutcome_of_step {s : Machine} {reg q k d : Nat} (hn : regsAt s q reg < 65536)
    (hs : step s =
      match Arith.div.eval (upd s.aligned PC q reg) d with
      | .ok v => .ok { adv s q k with aligned := upd (upd s.aligned PC q) reg (toWord v) }
      | .error e => .error e) :
    DivOutcome s reg q d := by
  constructor
  · intro hd
    have hs1 : step s = .error .divideByZero := by
      rw [hs]; simp [Arith.eval, hd]
    exact ⟨hs1, fun fuel hc hh => ExecuteLoop_fault fuel hc hh hs1⟩
  · intro hd
    have hs1 : step s = .ok { adv s q k with
        aligned := upd (upd s.aligned PC q) reg
          (toWord ((upd s.aligned PC q reg / d : Nat) : Int)) } := by
      rw [hs]; simp only [Arith.eval, if_neg hd]
    refine ⟨_, hs1, ?_⟩
    simp only [upd_same]
    exact toWord_div _ _ hn

/-- C17. `DIV reg, reg2`, `DIVC reg, imm` and `DIVA reg, addr`, fetched from
memory cells in a state whose registers hold 16-bit values: the step ends in
the divide-by-zero fault, and `Execute` with it, exactly when the divisor
(`R[reg2]`, the immediate of the selected width, the memory operand of the
selected width) is 0; for a divisor `d` other than 0 the step returns and
`R[reg]` holds the quotient `R[reg] / d` of the natural numbers.  Registers
are read as the handler reads them, the PC standing past the fetched
operands. -/
theorem division_by_zero_faults (s : Machine) (p reg : Nat) (hpc : s.aligned PC = p)
    (hreg : s.Data (p + 1) = reg) (hr : reg < 8)
    (hwf : ∀ i, i < 8 → s.aligned i < 65536) :
    (opcodeOf s = some OP_DIV → p + 2 < MEM_SIZE → s.Data (p + 2) < 8 →
      DivOutcome s reg (p + 3) (regsAt s (p + 3) (s.Data (p + 2)))) ∧
    (opcodeOf s = some OP_DIVC → p + 2 + width (byteFlagOf s) ≤ MEM_SIZE →
      DivOutcome s reg (p + 2 + width (byteFlagOf s)) (operandAt s (p + 2) (byteFlagOf s))) ∧
    (opcodeOf s = some OP_DIVA → p + 3 < MEM_SIZE →
      operandAt s (p + 2) false + width (byteFlagOf s) ≤ MEM_SIZE →
      DivOutcome s reg (p + 4)
        (operandAt s (operandAt s (p + 2) false) (byteFlagOf s))) := by
  have hw : width (byteFlagOf s) ≤ 2 := by unfold width; split <;> omega
  refine ⟨?_, ?_, ?_⟩
  · intro hop hp h2
    have hs := step_RR .div hpc hp (by rw [hop]; rfl) (by omega) h2
    rw [hreg] at hs
    exact divOutcome_of_step
      (regsAt_lt (by unfold MEM_SIZE at hp; omega) hr hwf) hs
  · intro hop hp
    have hs := step_RC .div hpc hp (by rw [hop]; rfl) (by omega)
    rw [hreg] at hs
    exact divOutcome_of_step
      (regsAt_lt (by unfold MEM_SIZE at hp; omega) hr hwf) hs
  · intro hop hp ha
    have hs := step_RA .div hpc hp (by rw [hop]; rfl) (by omega) ha
    rw [hreg] at hs
    exact divOutcome_of_step
      (regsAt_lt (by unfold MEM_SIZE at hp; omega) hr hwf) hs

set_option maxRecDepth 100000 in
/-- C17 at the specification's scenario 6, `LDC R0, 1; LDC R1, 0; DIV R0, R1`:
the `DIV` step faults, and so does `Execute`; and at `DIVC R0, 0x0003` with
`R0 = 10`, which stores the quotient 3. -/
theorem division_by_zero_faults_scenario :
    (divZeroAtDIV.aligned PC = 8 ∧ divZeroAtDIV.Data (8 + 1) = 0 ∧
      (∀ i, i < 8 → divZeroAtDIV.aligned i < 65536) ∧
      opcodeOf divZeroAtDIV = some OP_DIV ∧ 8 + 2 < MEM_SIZE ∧
      divZeroAtDIV.Data (8 + 2) < 8 ∧
      regsAt divZeroAtDIV (8 + 3) (divZeroAtDIV.Data (8 + 2)) = 0) ∧
    step divZeroAtDIV = .error .divideByZero ∧
    Execute 20 divZeroStart = .error .divideByZero ∧
    (divcMachine.aligned PC = 0 ∧ divcMachine.Data (0 + 1) = 0 ∧
      (∀ i, i < 8 → divcMachine.aligned i < 65536) ∧
      opcodeOf divcMachine = some OP_DIVC ∧
      0 + 2 + width (byteFlagOf divcMachine) ≤ MEM_SIZE ∧
      operandAt divcMachine (0 + 2) (byteFlagOf divcMachine) = 3 ∧
      regsAt divcMachine (0 + 2 + width (byteFlagOf divcMachine)) 0 = 10) ∧
    ∃ s1, step divcMachine = .ok s1 ∧ s1.aligned 0 = 3 := by
  refine ⟨by decide,
    (((division_by_zero_faults divZeroAtDIV 8 0 (by decide) (by decide) (by decide)
      (by decide)).1 (by decide) (by decide) (by decide)).1 (by decide)).1, rfl, by decide, ?_⟩
  obtain ⟨s1, h1, h2⟩ :=
    ((division_by_zero_faults divcMachine 0 0 (by decide) (by decide) (by decide)
      (by decide)).2.1 (by decide) (by decide)).2 (by decide)
  refine ⟨s1, h1, ?_⟩
  rw [h2]
  decide

theorem operandAt_word_lt (s : Machine) (a : Nat) : operandAt s a false < 65536 := by
  simp only [operandAt, Bool.false_eq_true, if_false]
  omega

theorem adv_jump (s : Machine) (q k t : Nat) :
    ({ adv s q k with aligned := upd (upd s.aligned PC q) PC t } : Machine) = adv s t k := by
  simp [adv]

theorem step_JRC {s : Machine} {p : Nat} (c : Cmp) (hpc : s.aligned PC = p)
    (hp : p + 4 + width (byteFlagOf s) ≤ MEM_SIZE)
    (hex : execute (opcodeOf s) (byteFlagOf s) = execJRC c (byteFlagOf s))
    (h1 : s.Data (p + 1) < 8) :
    step s = .ok (adv s
      (if c.eval (regsAt s (p + 4 + width (byteFlagOf s)) (s.Data (p + 1)))
            (operandAt s (p + 2) (byteFlagOf s)) = true
        then operandAt s (p + 2 + width (byteFlagOf s)) false
        else p + 4 + width (byteFlagOf s))
      (4 + width (byteFlagOf s))) := by
  have hw : 1 ≤ width (byteFlagOf s) := by unfold width; split <;> omega
  rw [step_adv hpc (by omega), hex, Exec.run_ok_iff]
  unfold execJRC
  rw [bind_FetchByte_adv _ _ _ (by omega), bind_fetchOperand_adv _ _ _ _ (by omega),
    bind_FetchWord_adv _ _ _ (by omega), bind_regGet_adv _ _ _ _ h1]
  have e : (s.Data (p + 1 + 1 + width (byteFlagOf s)) |||
      s.Data (p + 1 + 1 + width (byteFlagOf s) + 1) <<< 8) % 65536 =
      operandAt s (p + 2 + width (byteFlagOf s)) false := by
    simp [operandAt]
  have e2 : p + 1 + 1 + width (byteFlagOf s) + 2 = p + 4 + width (byteFlagOf s) := by omega
  have e3 : 1 + 1 + width (byteFlagOf s) + 2 = 4 + width (byteFlagOf s) := by omega
  rw [e, e2, e3]
  unfold regsAt
  split
  · rw [regSet_adv _ _ _ _ (by unfold PC; omega),
      Nat.mod_eq_of_lt (operandAt_word_lt _ _), adv_jump]
  · rfl

theorem JRC_result {s : Machine} {p reg v t : Nat} (c : Cmp) (hpc : s.aligned PC = p)
    (hp : p + 4 + width (byteFlagOf s) ≤ MEM_SIZE)
    (hex : execute (opcodeOf s) (byteFlagOf s) = execJRC c (byteFlagOf s))
    (hreg : s.Data (p + 1) = reg) (hr : reg < 6)
    (hv : operandAt s (p + 2) (byteFlagOf s) = v)
    (ht : operandAt s (p + 2 + width (byteFlagOf s)) false = t) :
    ∃ s1, step s = .ok s1 ∧
      s1.aligned PC =
        (if c.eval (s.aligned reg) v = true then t else p + 4 + width (byteFlagOf s)) ∧
      SameExcept s s1 PC := by
  have n1 : reg ≠ PC := by unfold PC; omega
  have hs := step_JRC c hpc hp hex (by omega)
  rw [hreg, hv, ht] at hs
  unfold regsAt at hs
  rw [upd_ne _ _ n1] at hs
  refine ⟨_, hs, by simp only [adv, upd_same], ?_, rfl, rfl, rfl⟩
  intro i h1 _
  simp only [adv, upd_ne _ _ h1]

/-- C18. `JRE`, `JRN`, `JRG`, `JRGE`, `JRL`, `JRLE reg, v, t` with `reg` in
0..5, fetched from memory cells, where `v` is the immediate of the selected
width (a word, or a zero-extended byte) and `t` the target word: after the
step the PC is `t` when `R[reg] = v`, `≠ v`, `> v`, `≥ v`, `< v`, `≤ v` holds
of the natural numbers, and the address of the next instruction otherwise;
no register other than the PC and no memory cell changes. -/
theorem JRC_compares_unsigned (s : Machine) (p reg v t : Nat) (hpc : s.aligned PC = p)
    (hp : p + 4 + width (byteFlagOf s) ≤ MEM_SIZE)
    (hreg : s.Data (p + 1) = reg) (hr : reg < 6)
    (hv : operandAt s (p + 2) (byteFlagOf s) = v)
    (ht : operandAt s (p + 2 + width (byteFlagOf s)) false = t) :
    (opcodeOf s = some OP_JRE → ∃ s1, step s = .ok s1 ∧ SameExcept s s1 PC ∧
      s1.aligned PC = if s.aligned reg = v then t else p + 4 + width (byteFlagOf s)) ∧
    (opcodeOf s = some OP_JRN → ∃ s1, step s = .ok s1 ∧ SameExcept s s1 PC ∧
      s1.aligned PC = if s.aligned reg ≠ v then t else p + 4 + width (byteFlagOf s)) ∧
    (opcodeOf s = some OP_JRG → ∃ s1, step s = .ok s1 ∧ SameExcept s s1 PC ∧
      s1.aligned PC = if s.aligned reg > v then t else p + 4 + width (byteFlagOf s)) ∧
    (opcodeOf s = some OP_JRGE → ∃ s1, step s = .ok s1 ∧ SameExcept s s1 PC ∧
      s1.aligned PC = if s.aligned reg ≥ v then t else p + 4 + width (byteFlagOf s)) ∧
    (opcodeOf s = some OP_JRL → ∃ s1, step s = .ok s1 ∧ SameExcept s s1 PC ∧
      s1.aligned PC = if s.aligned reg < v then t else p + 4 + width (byteFlagOf s)) ∧
    (opcodeOf s = some OP_JRLE → ∃ s1, step s = .ok s1 ∧ SameExcept s s1 PC ∧
      s1.aligned PC = if s.aligned reg ≤ v then t else p + 4 + width (byteFlagOf s)) := by
  refine ⟨?_, ?_, ?_, ?_, ?_, ?_⟩
  · intro hop
    obtain ⟨s1, hs, h1, hf⟩ := JRC_result .eq hpc hp (by rw [hop]; rfl) hreg hr hv ht
    exact ⟨s1, hs, hf, by simpa [Cmp.eval] using h1⟩
  · intro hop
    obtain ⟨s1, hs, h1, hf⟩ := JRC_result .ne hpc hp (by rw [hop]; rfl) hreg hr hv ht
    exact ⟨s1, hs, hf, by simpa [Cmp.eval] using h1⟩
  · intro hop
    obtain ⟨s1, hs, h1, hf⟩ := JRC_result .gt hpc hp (by rw [hop]; rfl) hreg hr hv ht
    exact ⟨s1, hs, hf, by simpa [Cmp.eval] using h1⟩
  · intro hop
    obtain ⟨s1, hs, h1, hf⟩ := JRC_result .ge hpc hp (by rw [hop]; rfl) hreg hr hv ht
    exact ⟨s1, hs, hf, by simpa [Cmp.eval] using h1⟩
  · intro hop
    obtain ⟨s1, hs, h1, hf⟩ := JRC_result .lt hpc hp (by rw [hop]; rfl) hreg hr hv ht
    exact ⟨s1, hs, hf, by simpa [Cmp.eval] using h1⟩
  · intro hop
    obtain ⟨s1, hs, h1, hf⟩ := JRC_result .le hpc hp (by rw [hop]; rfl) hreg hr hv ht
    exact ⟨s1, hs, hf, by simpa [Cmp.eval] using h1⟩

theorem step_RTN {s : Machine} {t a r : Nat} (hpc : s.aligned PC = t) (ht : t < MEM_SIZE)
    (hop : opcodeOf s = some OP_RTN) (hsp : s.aligned SP = a) (ha1 : a < MEM_SIZE)
    (ha2 : (a + 1) % 65536 < MEM_SIZE)
    (hret : (s.Data a ||| s.Data ((a + 1) % 65536) <<< 8) % 65536 = r) :
    ∃ s2, step s = .ok s2 ∧ s2.aligned PC = r ∧ s2.aligned SP = (a + 2) % 65536 ∧
      s2.Data = s.Data ∧ s2.cycles = s.cycles - 3 := by
  have hret16 : r < 65536 := by rw [← hret]; omega
  have hspa : (adv s (t + 1) 1).aligned SP = a := by
    simp only [adv]
    rw [upd_ne _ _ (by unfold SP PC; omega), hsp]
  refine ⟨{ adv s (t + 1) 3 with
      aligned := upd (upd (upd s.aligned PC (t + 1)) SP ((a + 2) % 65536)) PC r }, ?_, ?_, ?_,
    rfl, ?_⟩
  · rw [step_adv hpc ht, hop, Exec.run_ok_iff]
    simp only [execute]
    rw [Exec.bind_apply, StackPopWord_eq, hspa, ReadWord_eq, if_pos ⟨ha1, ha2⟩]
    simp only [adv, regSet, PC, SP, hret, Nat.mod_eq_of_lt hret16]
    simp
    ring
  · simp only [upd_same]
  · simp [upd, PC, SP]
  · simp [adv]

theorem step_JSR {s : Machine} {p sp t : Nat} (hpc : s.aligned PC = p) (hsp : s.aligned SP = sp)
    (hop : opcodeOf s = some OP_JSR) (hp : p + 2 < MEM_SIZE)
    (ht : operandAt s (p + 1) false = t)
    (ha1 : toWord ((sp : Int) - 2) < MEM_SIZE)
    (ha2 : (toWord ((sp : Int) - 2) + 1) % 65536 < MEM_SIZE) :
    step s = .ok { s with
      Data := upd (upd s.Data (toWord ((sp : Int) - 2)) ((p + 3) % 256))
        ((toWord ((sp : Int) - 2) + 1) % 65536) ((p + 3) / 256),
      aligned := upd (upd (upd s.aligned PC (p + 3)) SP (toWord ((sp : Int) - 2))) PC t,
      cycles := s.cycles - 5, accessed := s.accessed + 5 } := by
  have ht16 : t < 65536 := by rw [← ht]; exact operandAt_word_lt _ _
  have hspa : (adv s (p + 3) 3).aligned SP = sp := by
    simp only [adv]
    rw [upd_ne _ _ (by unfold SP PC; omega), hsp]
  have e : (s.Data (p + 1) ||| s.Data (p + 1 + 1) <<< 8) % 65536 = t := by
    rw [← ht]; simp [operandAt]
  have hret : p + 3 < 65536 := by unfold MEM_SIZE at hp; omega
  rw [step_adv hpc (by omega), hop, Exec.run_ok_iff]
  simp only [execute]
  rw [bind_FetchWord_adv _ _ _ (by omega), bind_regGet_adv _ _ _ _ (by unfold PC; omega), e]
  simp only [upd_same]
  rw [Exec.bind_apply, StackPushWord_eq, hspa, WriteWord_eq, if_pos ⟨ha1, ha2⟩, low_byte,
    high_byte _ hret]
  simp only [adv, regSet, PC, SP, Nat.mod_eq_of_lt ht16]
  simp
  ring

theorem keeps_pure {R : Machine → Machine → Prop} (h : StepInvariant R) {α : Type} (x : α) :
    Keeps R (pure x : Exec α) := by
  intro s y s1 hs
  cases hs
  exact h.refl s

theorem keeps_bind {R : Machine → Machine → Prop} (h : StepInvariant R) {α β : Type}
    {m : Exec α} {f : α → Exec β} (h1 : Keeps R m) (h2 : ∀ x, Keeps R (f x)) :
    Keeps R (m >>= f) := by
  intro s y s2 hs
  obtain ⟨x, s1, hm, hf⟩ := Exec.bind_ok hs
  exact h.trans _ _ _ (h1 s x s1 hm) (h2 x s1 y s2 hf)

theorem keeps_error {R : Machine → Machine → Prop} {α : Type} (e : Fault) :
    Keeps R (fun _ => .error e : Exec α) := by
  intro s x s1 hs
  cases hs

theorem keeps_memAtPCInc {R : Machine → Machine → Prop} (h : StepInvariant R) :
    Keeps R memAtPCInc :=
  keeps_bind h (h.on_regGet _) fun _ => keeps_bind h (h.on_regSet _ _) fun _ => h.on_memGet _

theorem keeps_FetchByte {R : Machine → Machine → Prop} (h : StepInvariant R) :
    Keeps R FetchByte :=
  keeps_bind h (h.on_charge _) fun _ => keeps_memAtPCInc h

theorem keeps_ReadByte {R : Machine → Machine → Prop} (h : StepInvariant R) (address : Nat) :
    Keeps R (ReadByte address) :=
  keeps_bind h (h.on_charge _) fun _ => h.on_memGet _

theorem keeps_WriteByte {R : Machine → Machine → Prop} (h : StepInvariant R)
    (address value : Nat) : Keeps R (WriteByte address value) :=
  keeps_bind h (h.on_memSet _ _) fun _ => h.on_charge _

theorem keeps_FetchWord {R : Machine → Machine → Prop} (h : StepInvariant R) :
    Keeps R FetchWord :=
  keeps_bind h (keeps_memAtPCInc h) fun _ =>
    keeps_bind h (keeps_memAtPCInc h) fun _ =>
      keeps_bind h (h.on_charge _) fun _ => keeps_pure h _

theorem keeps_ReadWord {R : Machine → Machine → Prop} (h : StepInvariant R) (address : Nat) :
    Keeps R (ReadWord address) :=
  keeps_bind h (h.on_memGet _) fun _ =>
    keeps_bind h (h.on_memGet _) fun _ => keeps_bind h (h.on_charge _) fun _ => keeps_pure h _

theorem keeps_WriteWord {R : Machine → Machine → Prop} (h : StepInvariant R)
    (address value : Nat) : Keeps R (WriteWord address value) :=
  keeps_bind h (h.on_memSet _ _) fun _ => keeps_bind h (h.on_memSet _ _) fun _ => h.on_charge _

theorem keeps_StackPushByte {R : Machine → Machine → Prop} (h : StepInvariant R)
    (value : Nat) : Keeps R (StackPushByte value) :=
  keeps_bind h (h.on_regGet _) fun _ =>
    keeps_bind h (h.on_regSet _ _) fun _ =>
      keeps_bind h (h.on_regGet _) fun _ => keeps_WriteByte h _ _

theorem keeps_StackPopByte {R : Machine → Machine → Prop} (h : StepInvariant R) :
    Keeps R StackPopByte :=
  keeps_bind h (h.on_regGet _) fun _ =>
    keeps_bind h (keeps_ReadByte h _) fun _ =>
      keeps_bind h (h.on_regSet _ _) fun _ => keeps_pure h _

theorem keeps_StackPushWord {R : Machine → Machine → Prop} (h : StepInvariant R)
    (value : Nat) : Keeps R (StackPushWord value) :=
  keeps_bind h (h.on_regGet _) fun _ =>
    keeps_bind h (h.on_regSet _ _) fun _ =>
      keeps_bind h (h.on_regGet _) fun _ => keeps_WriteWord h _ _

theorem keeps_StackPopWord {R : Machine → Machine → Prop} (h : StepInvariant R) :
    Keeps R StackPopWord :=
  keeps_bind h (h.on_regGet _) fun _ =>
    keeps_bind h (keeps_ReadWord h _) fun _ =>
      keeps_bind h (h.on_regSet _ _) fun _ => keeps_pure h _

theorem keeps_fetchOperand {R : Machine → Machine → Prop} (h : StepInvariant R) (W : Bool) :
    Keeps R (fetchOperand W) := by
  cases W
  · exact keeps_FetchWord h
  · exact keeps_FetchByte h

theorem keeps_readOperand {R : Machine → Machine → Prop} (h : StepInvariant R) (W : Bool)
    (address : Nat) : Keeps R (readOperand W address) := by
  cases W
  · exact keeps_ReadWord h _
  · exact keeps_ReadByte h _

theorem keeps_popOperand {R : Machine → Machine → Prop} (h : StepInvariant R) (W : Bool) :
    Keeps R (popOperand W) := by
  cases W
  · exact keeps_StackPopWord h
  · exact keeps_StackPopByte h

theorem keeps_writeOperand {R : Machine → Machine → Prop} (h : StepInvariant R) (W : Bool)
    (address value : Nat) : Keeps R (writeOperand W address value) := by
  cases W
  · exact keeps_WriteWord h _ _
  · exact keeps_WriteByte h _ _

theorem keeps_arithInto {R : Machine → Machine → Prop} (h : StepInvariant R) (op : Arith)
    (reg value : Nat) : Keeps R (arithInto op reg value) := by
  refine keeps_bind h (h.on_regGet reg) fun r => ?_
  cases hv : op.eval r value with
  | ok v => simp only [hv]; exact h.on_regSet _ _
  | error e => simp only [hv]; exact keeps_error _

theorem keeps_execRR {R : Machine → Machine → Prop} (h : StepInvariant R) (op : Arith) :
    Keeps R (execRR op) :=
  keeps_bind h (keeps_FetchByte h) fun _ =>
    keeps_bind h (keeps_FetchByte h) fun _ =>
      keeps_bind h (h.on_regGet _) fun _ => keeps_arithInto h _ _ _

theorem keeps_execRC {R : Machine → Machine → Prop} (h : StepInvariant R) (op : Arith)
    (W : Bool) : Keeps R (execRC op W) :=
  keeps_bind h (keeps_FetchByte h) fun _ =>
    keeps_bind h (keeps_fetchOperand h W) fun _ => keeps_arithInto h _ _ _

theorem keeps_execRA {R : Machine → Machine → Prop} (h : StepInvariant R) (op : Arith)
    (W : Bool) : Keeps R (execRA op W) :=
  keeps_bind h (keeps_FetchByte h) fun _ =>
    keeps_bind h (keeps_FetchWord h) fun _ =>
      keeps_bind h (keeps_readOperand h W _) fun _ => keeps_arithInto h _ _ _

theorem keeps_condJump {R : Machine → Machine → Prop} (h : StepInvariant R) (b : Bool)
    (t : Nat) : Keeps R (if b then regSet PC t else pure ()) := by
  cases b
  · exact keeps_pure h _
  · exact h.on_regSet _ _

theorem keeps_execJRC {R : Machine → Machine → Prop} (h : StepInvariant R) (c : Cmp)
    (W : Bool) : Keeps R (execJRC c W) :=
  keeps_bind h (keeps_FetchByte h) fun _ =>
    keeps_bind h (keeps_fetchOperand h W) fun _ =>
      keeps_bind h (keeps_FetchWord h) fun _ =>
        keeps_bind h (h.on_regGet _) fun _ => keeps_condJump h _ _

theorem keeps_execJRM {R : Machine → Machine → Prop} (h : StepInvariant R) (c : Cmp)
    (W : Bool) : Keeps R (execJRM c W) :=
  keeps_bind h (keeps_FetchByte h) fun _ =>
    keeps_bind h (keeps_FetchWord h) fun _ =>
      keeps_bind h (keeps_readOperand h W _) fun _ =>
        keeps_bind h (keeps_FetchWord h) fun _ =>
          keeps_bind h (h.on_regGet _) fun _ => keeps_condJump h _ _

theorem keeps_execLDR {R : Machine → Machine → Prop} (h : StepInvariant R) :
    Keeps R execLDR :=
  keeps_bind h (keeps_FetchByte h) fun _ =>
    keeps_bind h (keeps_FetchByte h) fun _ =>
      keeps_bind h (h.on_regGet _) fun _ => h.on_regSet _ _

theorem keeps_readInc {R : Machine → Machine → Prop} (h : StepInvariant R) (W : Bool)
    (address : Nat) (g : Nat → Nat) :
    Keeps R (if W then ReadByte address
             else (do let w ← ReadWord address; pure (g w) : Exec Nat)) := by
  cases W
  · exact keeps_bind h (keeps_ReadWord h _) fun _ => keeps_pure h _
  · exact keeps_ReadByte h _

theorem keeps_execute {R : Machine → Machine → Prop} (h : StepInvariant R)
    (hreset : ∀ s, R s (Reset s)) (op : Opcode) (W : Bool) (hop : op ≠ OP_HALT) :
    Keeps R (execute (some op) W) := by
  cases op
  case OP_HALT => exact absurd rfl hop
  case OP_NOP => exact keeps_pure h _
  case OP_RESET => intro s x s1 hs; cases hs; exact hreset s
  case OP_INC =>
    exact keeps_bind h (keeps_FetchByte h) fun _ =>
      keeps_bind h (h.on_regGet _) fun _ => h.on_regSet _ _
  case OP_DEC =>
    exact keeps_bind h (keeps_FetchByte h) fun _ =>
      keeps_bind h (h.on_regGet _) fun _ => h.on_regSet _ _
  case OP_INCM =>
    exact keeps_bind h (keeps_FetchWord h) fun address =>
      keeps_bind h (keeps_readInc h W address _) fun value => keeps_writeOperand h W address value
  case OP_DECM =>
    exact keeps_bind h (keeps_FetchWord h) fun address =>
      keeps_bind h (keeps_readInc h W address _) fun value => keeps_writeOperand h W address value
  case OP_ADD => exact keeps_execRR h _
  case OP_SUB => exact keeps_execRR h _
  case OP_MUL => exact keeps_execRR h _
  case OP_DIV => exact keeps_execRR h _
  case OP_ADDC => exact keeps_execRC h _ _
  case OP_SUBC => exact keeps_execRC h _ _
  case OP_MULC => exact keeps_execRC h _ _
  case OP_DIVC => exact keeps_execRC h _ _
  case OP_ADDA => exact keeps_execRA h _ _
  case OP_SUBA => exact keeps_execRA h _ _
  case OP_MULA => exact keeps_execRA h _ _
  case OP_DIVA => exact keeps_execRA h _ _
  case OP_UXT =>
    exact keeps_bind h (keeps_FetchByte h) fun _ =>
      keeps_bind h (h.on_regGet _) fun _ =>
        keeps_bind h (h.on_regSet _ _) fun _ => keeps_execLDR h
  case OP_LDR => exact keeps_execLDR h
  case OP_LDC =>
    exact keeps_bind h (keeps_FetchByte h) fun _ =>
      keeps_bind h (keeps_fetchOperand h W) fun _ => h.on_regSet _ _
  case OP_LDM =>
    exact keeps_bind h (keeps_FetchByte h) fun _ =>
      keeps_bind h (keeps_FetchWord h) fun _ =>
        keeps_bind h (keeps_readOperand h W _) fun _ => h.on_regSet _ _
  case OP_JMP => exact keeps_bind h (keeps_FetchWord h) fun _ => h.on_regSet _ _
  case OP_JRZ =>
    refine keeps_bind h (keeps_FetchByte h) fun _ => keeps_bind h (h.on_regGet _) fun r => ?_
    by_cases hr : r = 0
    · simp only [hr, if_true]
      exact keeps_bind h (keeps_FetchWord h) fun _ => h.on_regSet _ _
    · simp only [hr, if_false]
      exact keeps_bind h (h.on_regGet _) fun _ => h.on_regSet _ _
  case OP_JRE => exact keeps_execJRC h _ _
  case OP_JRN => exact keeps_execJRC h _ _
  case OP_JRG => exact keeps_execJRC h _ _
  case OP_JRGE => exact keeps_execJRC h _ _
  case OP_JRL => exact keeps_execJRC h _ _
  case OP_JRLE => exact keeps_execJRC h _ _
  case OP_JREM => exact keeps_execJRM h _ _
  case OP_JRNM => exact keeps_execJRM h _ _
  case OP_JRGM => exact keeps_execJRM h _ _
  case OP_JRGEM => exact keeps_execJRM h _ _
  case OP_JRLM => exact keeps_execJRM h _ _
  case OP_JRLEM => exact keeps_execJRM h _ _
  case OP_JSR =>
    exact keeps_bind h (keeps_FetchWord h) fun _ =>
      keeps_bind h (h.on_regGet _) fun _ =>
        keeps_bind h (keeps_StackPushWord h _) fun _ => h.on_regSet _ _
  case OP_RTN => exact keeps_bind h (keeps_StackPopWord h) fun _ => h.on_regSet _ _
  case OP_PUSH =>
    exact keeps_bind h (keeps_FetchByte h) fun _ =>
      keeps_bind h (h.on_regGet _) fun _ => keeps_StackPushWord h _
  case OP_PUSHM =>
    exact keeps_bind h (keeps_FetchByte h) fun _ =>
      keeps_bind h (keeps_FetchWord h) fun _ =>
        keeps_bind h (keeps_readOperand h W _) fun _ =>
          keeps_bind h (h.on_regGet _) fun _ => keeps_StackPushWord h _
  case OP_PUSHC =>
    exact keeps_bind h (keeps_FetchByte h) fun _ =>
      keeps_bind h (keeps_fetchOperand h W) fun _ =>
        keeps_bind h (h.on_regGet _) fun _ => keeps_StackPushWord h _
  case OP_POP =>
    exact keeps_bind h (keeps_FetchByte h) fun _ =>
      keeps_bind h (keeps_popOperand h W) fun _ => h.on_regSet _ _
  case OP_POPM =>
    exact keeps_bind h (keeps_FetchWord h) fun _ =>
      keeps_bind h (keeps_popOperand h W) fun _ => keeps_writeOperand h W _ _
  all_goals exact keeps_error _

theorem sameHalted_invariant : StepInvariant SameHalted where
  refl := fun _ => rfl
  trans := fun _ _ _ h1 h2 => h2.trans h1
  on_memGet := by
    intro a s x s1 h
    unfold memGet at h
    split at h
    · cases h; rfl
    · cases h
  on_memSet := by
    intro a v s x s1 h
    unfold memSet at h
    split at h
    · cases h; rfl
    · cases h
  on_regGet := by
    intro r s x s1 h
    unfold regGet at h
    split at h
    · cases h; rfl
    · cases h
  on_regSet := by
    intro r v s x s1 h
    unfold regSet at h
    split at h
    · cases h; rfl
    · cases h
  on_charge := by
    intro k s x s1 h
    cases h
    rfl

theorem ofVal_val {v : Nat} {op : Opcode} (h : Opcode.ofVal v = some op) : op.val = v := by
  unfold Opcode.ofVal at h
  have := List.find?_some h
  simpa using this

theorem ofVal_HALT : Opcode.ofVal 0x7F = some OP_HALT := by decide

/-- Steps that stay inside the arrays: after a step that returns in the
embedding (every index of `aligned` below 8, every index of `Data` below
`MEM_SIZE`) from a non-halted state, the halted flag is set exactly when the
low 7 bits of the fetched instruction byte are `0x7F`; in that case the step
has advanced the PC by 1, charged 1 cycle and changed no other register, no
memory cell and not the status byte, and the loop of `Execute` returns that
very state at once.  Steps with a register byte of 8 or more are not covered:
they are faults of the embedding. -/
theorem halted_only_by_HALT (s s1 : Machine) (hh : s.halted = false) (h : step s = .ok s1) :
    (s1.halted = true ↔ instByte s &&& 0x7F = 0x7F) ∧
    (instByte s &&& 0x7F = 0x7F →
      s1.aligned PC = s.aligned PC + 1 ∧ s1.cycles = s.cycles - 1 ∧
      (∀ i, i ≠ PC → s1.aligned i = s.aligned i) ∧ s1.Data = s.Data ∧
      s1.status = s.status ∧ ∀ fuel, ExecuteLoop fuel s1 = .ok s1) := by
  obtain ⟨sa, hF, hE⟩ := step_ok h
  have hFe := FetchByte_eq s
  by_cases hpc : s.aligned PC < MEM_SIZE
  · rw [if_pos hpc, hF] at hFe
    have e : (s.aligned PC + 1) % 65536 = s.aligned PC + 1 := by
      unfold MEM_SIZE at hpc; omega
    rw [e] at hFe
    simp only [Except.ok.injEq, Prod.mk.injEq] at hFe
    obtain ⟨-, hFe⟩ := hFe
    by_cases hv : instByte s &&& 0x7F = 0x7F
    · have hop : opcodeOf s = some OP_HALT := by
        unfold opcodeOf; rw [hv]; exact ofVal_HALT
      rw [hop] at hE
      simp only [execute, Except.ok.injEq, Prod.mk.injEq, true_and] at hE
      subst hE
      subst hFe
      refine ⟨⟨fun _ => hv, fun _ => rfl⟩, fun _ => ⟨?_, rfl, ?_, rfl, rfl, ?_⟩⟩
      · simp only [upd_same]
      · intro i hi; simp only [upd_ne _ _ hi]
      · intro fuel; exact ExecuteLoop_halted fuel rfl
    · refine ⟨⟨?_, fun h1 => absurd h1 hv⟩, fun h1 => absurd h1 hv⟩
      intro h1
      exfalso
      cases hop : opcodeOf s with
      | none => rw [hop] at hE; cases hE
      | some op =>
        rw [hop] at hE
        have hne : op ≠ OP_HALT := by
          intro hc
          subst hc
          exact hv (ofVal_val hop).symm
        have k1 : sa.halted = s.halted := by rw [hFe]
        have k2 : s1.halted = sa.halted :=
          keeps_execute sameHalted_invariant (fun _ => rfl) op _ hne _ _ _ hE
        rw [k2, k1, hh] at h1
        cases h1
  · rw [if_neg hpc, hF] at hFe
    cases hFe

/-- C11 on the code: address `0xFFFF` is a 16-bit address but not an index
of the `MEM_SIZE = 0xFFFF` byte array, so reading or writing the byte there
is out of range; after `JMP 0xFFFF` the PC is `0xFFFF` and the next fetch of
`Execute` indexes outside the array. -/
theorem address_0xFFFF_out_of_range :
    0xFFFF < 65536 ∧ ¬ (0xFFFF < MEM_SIZE) ∧
    memGet 0xFFFF resetMachine = .error .memoryIndex ∧
    memSet 0xFFFF 0 resetMachine = .error .memoryIndex ∧
    ReadByte 0xFFFF resetMachine = .error .memoryIndex ∧
    observe (step jmpEndMachine) = some (0, 0xFFFF, false, -3) ∧
    Execute 10 jmpEndMachine = .error .memoryIndex :=
  ⟨by decide, by decide, rfl, rfl, rfl, by decide, rfl⟩

set_option maxRecDepth 100000 in
/-- C13 on the code: case `OP_UXT` has no `break`, so `UXT R0` followed by
the bytes `0x01, 0x02` also runs `LDR R1, R2`: it leaves `R0 = 0x0034` but
also `R1 = 0x5678`, `PC = 4` and 4 cycles charged, not `PC = 2` and 2
cycles. -/
theorem UXT_falls_through :
    Opcode.ofVal 0x20 = some OP_UXT ∧
    registersOf (.ok uxtMachine) = some [0x1234, 0, 0x5678, 0, 0, 0, 0, 0xFFFF] ∧
    registersOf (step uxtMachine) = some [0x0034, 0x5678, 0x5678, 0, 0, 0, 4, 0xFFFF] ∧
    observe (step uxtMachine) = some (0x0034, 4, false, uxtMachine.cycles - 4) := by
  decide

set_option maxRecDepth 100000 in
/-- C14 on the code: in byte form the `+ 1` and `- 1` bind to the word
branch of the conditional expression only, so `INCM.b` and `DECM.b` write the
byte back unchanged: a cell holding 5 still holds 5, not 6 or 4.  The word
forms do step the word: `0x00FF` becomes `0x0100` and `0x00FE`. -/
theorem INCM_DECM_byte_unchanged :
    Opcode.ofVal (0x91 &&& 0x7F) = some OP_INCM ∧ Opcode.ofVal (0x93 &&& 0x7F) = some OP_DECM ∧
    incmByteMachine.Data 0x20 = 5 ∧ decmByteMachine.Data 0x20 = 5 ∧
    cellOf 0x20 (step incmByteMachine) = some 5 ∧
    cellOf 0x20 (step decmByteMachine) = some 5 ∧
    cellOf 0x20 (step incmWordMachine) = some 0x00 ∧
    cellOf 0x21 (step incmWordMachine) = some 0x01 ∧
    cellOf 0x20 (step decmWordMachine) = some 0xFE ∧
    cellOf 0x21 (step decmWordMachine) = some 0x00 := by
  decide

theorem toWord_pred_succ {sp : Nat} (h : sp < 65536) :
    (toWord ((sp : Int) - 2) + 1) % 65536 = toWord ((sp : Int) - 1) := by
  unfold toWord
  omega

/-- C19. `JSR t` at `PC = p` with `SP = sp`, the instruction and the two
stack bytes being memory cells: the step sets `PC = t` and `SP = sp - 2` and
stores the return address `p + 3` little-endian at `sp - 2` and `sp - 1`
(modulo `2^16`).  If moreover the byte at `t` is `RTN` and `t` is neither of
the two addresses just written, the next step sets `PC = p + 3` and
`SP = sp`. -/
theorem JSR_then_RTN (s : Machine) (p sp t : Nat) (hpc : s.aligned PC = p)
    (hsp : s.aligned SP = sp) (hsp16 : sp < 65536) (hop : opcodeOf s = some OP_JSR)
    (hp : p + 2 < MEM_SIZE) (ht : operandAt s (p + 1) false = t)
    (ha1 : toWord ((sp : Int) - 2) < MEM_SIZE) (ha2 : toWord ((sp : Int) - 1) < MEM_SIZE) :
    ∃ s1, step s = .ok s1 ∧ s1.aligned PC = t ∧ s1.aligned SP = toWord ((sp : Int) - 2) ∧
      s1.Data (toWord ((sp : Int) - 2)) = (p + 3) % 256 ∧
      s1.Data (toWord ((sp : Int) - 1)) = (p + 3) / 256 ∧
      (t < MEM_SIZE → s.Data t &&& 0x7F = 0x41 →
        t ≠ toWord ((sp : Int) - 2) → t ≠ toWord ((sp : Int) - 1) →
        ∃ s2, step s1 = .ok s2 ∧ s2.aligned PC = p + 3 ∧ s2.aligned SP = sp) := by
  have e1 := toWord_pred_succ hsp16
  have hne : toWord ((sp : Int) - 2) ≠ toWord ((sp : Int) - 1) := by
    unfold toWord; omega
  have hs := step_JSR hpc hsp hop hp ht ha1 (by rw [e1]; exact ha2)
  rw [e1] at hs
  have hret : p + 3 < 65536 := by unfold MEM_SIZE at hp; omega
  have hback : (toWord ((sp : Int) - 2) + 2) % 65536 = sp := by unfold toWord; omega
  refine ⟨_, hs, by simp only [upd_same], ?_, ?_, by simp only [upd_same], ?_⟩
  · simp [upd, PC, SP]
  · simp only [upd_ne _ _ hne, upd_same]
  · intro htm hrtn hn1 hn2
    have hop1 : opcodeOf ({ s with
        Data := upd (upd s.Data (toWord ((sp : Int) - 2)) ((p + 3) % 256))
          (toWord ((sp : Int) - 1)) ((p + 3) / 256),
        aligned := upd (upd (upd s.aligned PC (p + 3)) SP (toWord ((sp : Int) - 2))) PC t,
        cycles := s.cycles - 5, accessed := s.accessed + 5 } : Machine) = some OP_RTN := by
      simp only [opcodeOf, instByte, upd_same, upd_ne _ _ hn2, upd_ne _ _ hn1, hrtn]
      decide
    obtain ⟨s2, hs2, hp2, hsp2, -, -⟩ :=
      step_RTN (r := p + 3) (a := toWord ((sp : Int) - 2)) (t := t)
        (by simp only [upd_same]) htm hop1 (by simp [upd, PC, SP]) ha1
        (by rw [e1]; exact ha2)
        (by
          simp only [e1, upd_ne _ _ hne, upd_same]
          exact word_of_bytes _ hret)
    exact ⟨s2, hs2, hp2, by rw [hsp2, hback]⟩

set_option maxRecDepth 100000 in
/-- C12 at `LDC.b R2, 0xAB` and at `LDC R1, 0x1234` on the reset machine. -/
theorem LDC_loads_immediate_scenario :
    (ldcByteMachine.aligned PC = 0 ∧ opcodeOf ldcByteMachine = some OP_LDC ∧
      ldcByteMachine.Data (0 + 1) = 2 ∧ ldcByteMachine.Data (0 + 2) = 0xAB ∧
      byteFlagOf ldcByteMachine = true ∧ 0 + 2 < MEM_SIZE) ∧
    (∃ s1, step ldcByteMachine = .ok s1 ∧ s1.aligned 2 = 0x00AB ∧ s1.aligned PC = 3) ∧
    (ldcWordMachine.aligned PC = 0 ∧ opcodeOf ldcWordMachine = some OP_LDC ∧
      ldcWordMachine.Data (0 + 1) = 1 ∧ ldcWordMachine.Data (0 + 2) = 0x34 ∧
      ldcWordMachine.Data (0 + 3) = 0x12 ∧ byteFlagOf ldcWordMachine = false ∧
      0 + 3 < MEM_SIZE) ∧
    (∃ s1, step ldcWordMachine = .ok s1 ∧ s1.aligned 1 = 0x1234 ∧ s1.aligned PC = 4) := by
  refine ⟨by decide, ?_, by decide, ?_⟩
  · obtain ⟨s1, h1, h2, h3, -⟩ :=
      (LDC_loads_immediate ldcByteMachine 0 2 0xAB 0 (by decide) (by decide) (by decide)
        (by decide) (by decide) (by decide)).1 (by decide) (by decide)
    exact ⟨s1, h1, h2, h3 (by decide)⟩
  · obtain ⟨s1, h1, h2, h3, -⟩ :=
      (LDC_loads_immediate ldcWordMachine 0 1 0x34 0x12 (by decide) (by decide) (by decide)
        (by decide) (by decide) (by decide)).2 (by decide) (by decide) (by decide) (by decide)
    exact ⟨s1, h1, h2, h3 (by decide)⟩

set_option maxRecDepth 100000 in
/-- C16 at `ADD R0, R1` with `R0 = 0xFFFF`, `R1 = 2`: the sum wraps to 1. -/
theorem arith_RR_wraps_ADD :
    (addMachine.aligned PC = 0 ∧ 0 + 2 < MEM_SIZE ∧ addMachine.Data (0 + 1) = 0 ∧
      addMachine.Data (0 + 2) = 1 ∧ opcodeOf addMachine = some OP_ADD ∧
      addMachine.aligned 0 = 0xFFFF ∧ addMachine.aligned 1 = 2) ∧
    ∃ s1, step addMachine = .ok s1 ∧ s1.aligned 0 = 1 ∧ s1.aligned PC = 3 ∧
      SameExcept addMachine s1 0 := by
  refine ⟨by decide, ?_⟩
  obtain ⟨s1, h1, h2, h3, h4⟩ :=
    (arith_RR_wraps addMachine 0 0 1 (by decide) (by decide) (by decide) (by decide)
      (by decide) (by decide)).1 (by decide)
  refine ⟨s1, h1, ?_, h3, h4⟩
  rw [h2]
  decide

set_option maxRecDepth 100000 in
/-- C18 at `JRG R0, 0x0001, 0x1234` with `R0 = 0x8000`: the jump is taken,
`0x8000` being greater than 1 as an unsigned number. -/
theorem JRC_compares_unsigned_JRG :
    (jrgMachine.aligned PC = 0 ∧ 0 + 4 + width (byteFlagOf jrgMachine) ≤ MEM_SIZE ∧
      jrgMachine.Data (0 + 1) = 0 ∧ operandAt jrgMachine (0 + 2) (byteFlagOf jrgMachine) = 1 ∧
      operandAt jrgMachine (0 + 2 + width (byteFlagOf jrgMachine)) false = 0x1234 ∧
      opcodeOf jrgMachine = some OP_JRG ∧ jrgMachine.aligned 0 = 0x8000) ∧
    ∃ s1, step jrgMachine = .ok s1 ∧ SameExcept jrgMachine s1 PC ∧ s1.aligned PC = 0x1234 := by
  refine ⟨by decide, ?_⟩
  obtain ⟨s1, h1, h2, h3⟩ :=
    (JRC_compares_unsigned jrgMachine 0 0 1 0x1234 (by decide) (by decide) (by decide)
      (by decide) (by decide) (by decide)).2.2.1 (by decide)
  refine ⟨s1, h1, h2, ?_⟩
  rw [h3]
  decide

set_option maxRecDepth 100000 in
/-- C15, amended, at `ADDC.b R0, 0x01` with `R0 = 0x00FF`: the result is
`0x0100`. -/
theorem arith_RC_byte_wraps_ADDC :
    (addcByteMachine.aligned PC = 0 ∧ 0 + 2 < MEM_SIZE ∧ byteFlagOf addcByteMachine = true ∧
      addcByteMachine.Data (0 + 1) = 0 ∧ addcByteMachine.Data (0 + 2) = 1 ∧
      opcodeOf addcByteMachine = some OP_ADDC ∧ addcByteMachine.aligned 0 = 0x00FF) ∧
    ∃ s1, step addcByteMachine = .ok s1 ∧ s1.aligned 0 = 0x0100 ∧ s1.aligned PC = 3 ∧
      SameExcept addcByteMachine s1 0 := by
  refine ⟨by decide, ?_⟩
  obtain ⟨s1, h1, h2, h3, h4⟩ :=
    (arith_RC_byte_wraps addcByteMachine 0 0 1 (by decide) (by decide) (by decide) (by decide)
      (by decide) (by decide)).1 (by decide)
  refine ⟨s1, h1, ?_, h3, h4⟩
  rw [h2]
  decide

set_option maxRecDepth 1000000 in
theorem subroutineMachine_observed :
    registersOf (Execute 13 subroutineMachine) = some [0, 0x1234, 0, 0, 0, 0, 4, 0xFFFF] ∧
    observe (Execute 13 subroutineMachine) = some (0, 4, true, 0) := by
  decide

set_option maxRecDepth 100000 in
/-- C19 at `JSR 0x0010` from the reset state with `RTN` at `0x0010`, and the
run of the specification's scenario 3, which ends halted with `R1 = 0x1234`
and `SP = 0xFFFF`. -/
theorem JSR_then_RTN_scenario :
    (callReturnMachine.aligned PC = 0 ∧ callReturnMachine.aligned SP = 0xFFFF ∧
      opcodeOf callReturnMachine = some OP_JSR ∧ 0 + 2 < MEM_SIZE ∧
      operandAt callReturnMachine (0 + 1) false = 0x10 ∧
      toWord (((0xFFFF : Nat) : Int) - 2) = 0xFFFD ∧
      toWord (((0xFFFF : Nat) : Int) - 1) = 0xFFFE ∧
      callReturnMachine.Data 0x10 &&& 0x7F = 0x41) ∧
    (∃ s1, step callReturnMachine = .ok s1 ∧ s1.aligned PC = 0x10 ∧ s1.aligned SP = 0xFFFD ∧
      s1.Data 0xFFFD = 3 ∧ s1.Data 0xFFFE = 0 ∧
      ∃ s2, step s1 = .ok s2 ∧ s2.aligned PC = 3 ∧ s2.aligned SP = 0xFFFF) ∧
    registersOf (Execute 13 subroutineMachine) = some [0, 0x1234, 0, 0, 0, 0, 4, 0xFFFF] ∧
    observe (Execute 13 subroutineMachine) = some (0, 4, true, 0) := by
  refine ⟨by decide, ?_, subroutineMachine_observed⟩
  obtain ⟨s1, h1, h2, h3, h4, h5, h6⟩ :=
    JSR_then_RTN callReturnMachine 0 0xFFFF 0x10 (by decide) (by decide) (by decide)
      (by decide) (by decide) (by decide) (by decide) (by decide)
  have e1 : toWord (((0xFFFF : Nat) : Int) - 2) = 0xFFFD := by decide
  have e2 : toWord (((0xFFFF : Nat) : Int) - 1) = 0xFFFE := by decide
  rw [e1] at h3 h4
  rw [e2] at h5
  exact ⟨s1, h1, h2, h3, h4, h5, h6 (by decide) (by decide) (by decide) (by decide)⟩

set_option maxRecDepth 100000 in
/-- The image `[0x7F]`: the step halts, and `Execute` with budget 10 ends
with `halted = true`, `PC = 1` and 9 cycles left, 1 used. -/
theorem halted_only_by_HALT_scenario :
    (haltMachine.halted = false ∧ step haltMachine = .ok (stepState haltMachine) ∧
      instByte haltMachine &&& 0x7F = 0x7F) ∧
    ((stepState haltMachine).halted = true ∧
      (stepState haltMachine).aligned PC = haltMachine.aligned PC + 1 ∧
      (stepState haltMachine).cycles = haltMachine.cycles - 1) ∧
    observe (Execute 10 haltMachine) = some (0, 1, true, 9) := by
  have h := halted_only_by_HALT haltMachine (stepState haltMachine) (by decide) rfl
  have hv : instByte haltMachine &&& 0x7F = 0x7F := by decide
  exact ⟨⟨by decide, rfl, hv⟩, ⟨h.1.2 hv, (h.2 hv).1, (h.2 hv).2.1⟩, by decide⟩

/-! ## The zero test of `JRZ` and the bound on the overrun -/

theorem step_JRZ {s : Machine} {p reg : Nat} (hpc : s.aligned PC = p)
    (hop : opcodeOf s = some OP_JRZ) (hreg : s.Data (p + 1) = reg) (hr : reg < 6) :
    (s.aligned reg = 0 → p + 3 < MEM_SIZE →
      step s = .ok (adv s (operandAt s (p + 2) false) 4)) ∧
    (s.aligned reg ≠ 0 → p + 1 < MEM_SIZE →
      step s = .ok (adv s ((p + 4) % 65536) 2)) := by
  have n1 : reg ≠ PC := by unfold PC; omega
  have hx : ∀ hp : p + 1 < MEM_SIZE, step s =
      Exec.run (if s.aligned reg = 0 then FetchWord >>= fun t => regSet PC t
        else regGet PC >>= fun pc => regSet PC (pc + 2)) (adv s (p + 2) 2) := by
    intro hp
    rw [step_adv hpc (by omega), hop]
    unfold Exec.run
    simp only [execute]
    rw [bind_FetchByte_adv _ _ _ (by omega), hreg, bind_regGet_adv _ _ _ _ (by omega),
      upd_ne _ _ n1]
  constructor
  · intro h0 hp
    rw [hx (by omega), if_pos h0, Exec.run_ok_iff, bind_FetchWord_adv _ _ _ (by omega),
      regSet_adv _ _ _ _ (by unfold PC; omega)]
    have e : (s.Data (p + 2) ||| s.Data (p + 2 + 1) <<< 8) % 65536 =
        operandAt s (p + 2) false := by simp [operandAt]
    rw [e, Nat.mod_eq_of_lt (operandAt_word_lt _ _), adv_jump]
  · intro h0 hp
    rw [hx hp, if_neg h0, Exec.run_ok_iff, bind_regGet_adv _ _ _ _ (by unfold PC; omega),
      upd_same, regSet_adv _ _ _ _ (by unfold PC; omega), adv_jump]

/-- C21. `JRZ reg, t` with `reg` in 0..5, its four bytes fetched from memory
cells at `p`: with `R[reg] = 0` the step sets the PC to the target word `t`,
charges 4 cycles and makes 4 memory accesses; with `R[reg] ≠ 0` it sets the PC
to `p + 4`, charges 2 cycles and makes 2 memory accesses, the target word
being stepped over without a fetch.  In both cases every register other than
the PC, all memory, the status byte and the halted flag are unchanged. -/
theorem JRZ_skip_policy (s : Machine) (p reg t : Nat) (hpc : s.aligned PC = p)
    (hp : p + 3 < MEM_SIZE) (hop : opcodeOf s = some OP_JRZ)
    (hreg : s.Data (p + 1) = reg) (hr : reg < 6)
    (ht : operandAt s (p + 2) false = t) :
    (s.aligned reg = 0 →
      ∃ s1, step s = .ok s1 ∧ s1.aligned PC = t ∧ s1.cycles = s.cycles - 4 ∧
        s1.accessed = s.accessed + 4 ∧ SameExcept s s1 PC) ∧
    (s.aligned reg ≠ 0 →
      ∃ s1, step s = .ok s1 ∧ s1.aligned PC = p + 4 ∧ s1.cycles = s.cycles - 2 ∧
        s1.accessed = s.accessed + 2 ∧ SameExcept s s1 PC) := by
  have hz := step_JRZ hpc hop hreg hr
  have e : (p + 4) % 65536 = p + 4 := by unfold MEM_SIZE at hp; omega
  constructor
  · intro h0
    refine ⟨_, hz.1 h0 hp, ?_, ?_, rfl, ?_, rfl, rfl, rfl⟩
    · rw [← ht]; simp only [adv, upd_same]
    · simp [adv]
    · intro i h1 _
      simp only [adv, upd_ne _ _ h1]
  · intro h0
    refine ⟨_, hz.2 h0 (by omega), ?_, ?_, rfl, ?_, rfl, rfl, rfl⟩
    · simp only [adv, upd_same, e]
    · simp [adv]
    · intro i h1 _
      simp only [adv, upd_ne _ _ h1]

theorem handlerBytes_le (op : Opcode) (W : Bool) : handlerBytes op W ≤ 7 := by
  cases op <;> cases W <;> decide

/-- One iteration charges at most 8 cycles. -/
theorem step_cost_le {s s2 : Machine} (h : step s = .ok s2) : s.cycles - 8 ≤ s2.cycles := by
  obtain ⟨s1, hF, hE⟩ := step_ok h
  obtain ⟨c1, -⟩ := costs_FetchByte _ _ _ hF
  cases hop : opcodeOf s with
  | none => rw [hop] at hE; cases hE
  | some op =>
    rw [hop] at hE
    by_cases hz : op = OP_JRZ
    · subst hz
      obtain ⟨r, s0, -, c2, -⟩ := costs_JRZ hE
      rw [c2, c1]
      split <;> push_cast <;> omega
    · obtain ⟨c2, -⟩ := costs_execute op (byteFlagOf s) hz _ _ _ hE
      have := handlerBytes_le op (byteFlagOf s)
      rw [c2, c1]
      push_cast
      omega

/-- The loop never leaves the counter below `-7`. -/
theorem ExecuteLoop_overrun (fuel : Nat) :
    ∀ (s s1 : Machine), -7 ≤ s.cycles → ExecuteLoop fuel s = .ok s1 → -7 ≤ s1.cycles := by
  induction fuel with
  | zero =>
    intro s s1 hc h
    cases h
    exact hc
  | succ f ih =>
    intro s s1 hc h
    rw [ExecuteLoop_succ] at h
    split_ifs at h with hg
    · cases hs : step s with
      | error e => rw [hs] at h; cases h
      | ok s2 =>
        rw [hs] at h
        have := step_cost_le hs
        exact ih s2 s1 (by omega) h
    · cases h
      exact hc

set_option maxRecDepth 1000000 in
theorem jremMachine_observed :
    observe (Execute 1 jremMachine) = some (0, 0x20, false, -7) := by
  decide

/-- C22. Whenever `Execute` with a budget `b > 0` returns, the counter it
leaves is at least `-7`, and the machine is halted or the counter is at most
0.  The bound is attained: the word-form `JREM R0, 0x0010, 0x0020` run with a
budget of 1 returns with the counter at `-7`. -/
theorem Execute_bounded_overrun (s s1 : Machine) (b : Int) (hb : 0 < b)
    (h : Execute b s = .ok s1) :
    -7 ≤ s1.cycles ∧ (s1.halted = true ∨ s1.cycles ≤ 0) ∧
    (opcodeOf jremMachine = some OP_JREM ∧ byteFlagOf jremMachine = false ∧
      observe (Execute 1 jremMachine) = some (0, 0x20, false, -7)) := by
  unfold Execute at h
  refine ⟨ExecuteLoop_overrun _ _ _ (by simp only; omega) h,
    ExecuteLoop_exit _ _ _ (by simp only; omega) h, by decide, by decide, jremMachine_observed⟩

set_option maxRecDepth 100000 in
/-- C21 at `JRZ R0, 0x1234`: with `R0 = 0` the PC becomes `0x1234` for 4
cycles; with `R0 = 5` the PC becomes 4 for 2 cycles. -/
theorem JRZ_skip_policy_scenario :
    (jrzTakenMachine.aligned PC = 0 ∧ 0 + 3 < MEM_SIZE ∧
      opcodeOf jrzTakenMachine = some OP_JRZ ∧ jrzTakenMachine.Data (0 + 1) = 0 ∧
      operandAt jrzTakenMachine (0 + 2) false = 0x1234 ∧ jrzTakenMachine.aligned 0 = 0 ∧
      jrzSkipMachine.aligned PC = 0 ∧ opcodeOf jrzSkipMachine = some OP_JRZ ∧
      jrzSkipMachine.Data (0 + 1) = 0 ∧ operandAt jrzSkipMachine (0 + 2) false = 0x1234 ∧
      jrzSkipMachine.aligned 0 ≠ 0) ∧
    (∃ s1, step jrzTakenMachine = .ok s1 ∧ s1.aligned PC = 0x1234 ∧
      s1.cycles = jrzTakenMachine.cycles - 4 ∧
      s1.accessed = jrzTakenMachine.accessed + 4 ∧ SameExcept jrzTakenMachine s1 PC) ∧
    (∃ s1, step jrzSkipMachine = .ok s1 ∧ s1.aligned PC = 0 + 4 ∧
      s1.cycles = jrzSkipMachine.cycles - 2 ∧
      s1.accessed = jrzSkipMachine.accessed + 2 ∧ SameExcept jrzSkipMachine s1 PC) :=
  ⟨by decide,
    (JRZ_skip_policy jrzTakenMachine 0 0 0x1234 (by decide) (by decide) (by decide)
      (by decide) (by decide) (by decide)).1 (by decide),
    (JRZ_skip_policy jrzSkipMachine 0 0 0x1234 (by decide) (by decide) (by decide)
      (by decide) (by decide) (by decide)).2 (by decide)⟩

set_option maxRecDepth 1000000 in
/-- C22 at two runs: the word-form `JREM` with a budget of 1 returns with
the counter at `-7`, not halted; `HALT` with a budget of 10 returns halted
with the counter at 9. -/
theorem Execute_bounded_overrun_scenario :
    (0 < (1 : Int) ∧ 0 < (10 : Int)) ∧
    (∃ s1, Execute 1 jremMachine = .ok s1 ∧ s1.cycles = -7 ∧ s1.halted = false ∧
      -7 ≤ s1.cycles ∧ (s1.halted = true ∨ s1.cycles ≤ 0)) ∧
    (∃ s1, Execute 10 haltMachine = .ok s1 ∧ s1.cycles = 9 ∧ s1.halted = true ∧
      -7 ≤ s1.cycles ∧ (s1.halted = true ∨ s1.cycles ≤ 0)) := by
  have o1 := jremMachine_observed
  have o2 : observe (Execute 10 haltMachine) = some (0, 1, true, 9) := by decide
  obtain ⟨s1, h1, -, -, hh1, hc1⟩ := observe_some o1
  obtain ⟨s2, h2, -, -, hh2, hc2⟩ := observe_some o2
  have t1 := Execute_bounded_overrun jremMachine s1 1 (by decide) h1
  have t2 := Execute_bounded_overrun haltMachine s2 10 (by decide) h2
  exact ⟨by decide, ⟨s1, h1, hc1, hh1, t1.1, t1.2.1⟩, ⟨s2, h2, hc2, hh2, t2.1, t2.2.1⟩⟩

/-! ## A register byte outside the register file -/

end CortexM7
